import Mathlib

/-! # roctracer runtime loaders (src/core/loader.h)

A shallow embedding of the four lazily initialised loader singletons
`HipLoader`, `HccLoader`, `KfdLoader` and `RocTxLoader` and of their common
base class `Loader`.

* Pointers are natural numbers, `0` is `NULL`.
* The dynamic linker (`dlopen`, `dlsym`, `dlerror`) is an explicit value `OS`.
* `Instance()` is a small-step program: every thread has a program counter
  `PC` that walks through the statements of the function, and `step` executes
  one statement of one thread on the shared process state.  Interleavings are
  schedules (`List Act`); a sequential call is the same program run by one
  thread until it returns.
* Every externally visible action is appended to `State.trace`.
* Statements are atomic and interleavings sequentially consistent; the
  acquire, relaxed and release orders of the loads and stores are not
  distinguished.  The destructor `~Loader` is never reached by `Instance()`
  and is left out.
-/

set_option linter.dupNamespace false

namespace roctracer

/-- Pointwise update of a total map. -/
def upd {α β : Type} [DecidableEq α] (f : α → β) (a : α) (b : β) : α → β :=
  fun x => if x = a then b else f x

/-- The four classes derived from `Loader`. -/
inductive LoaderKind
  | Hip
  | Hcc
  | Kfd
  | RocTx
  deriving DecidableEq, Repr

/-- The two `dlopen` flags used by `Loader::Loader`. -/
inductive DlFlag
  | RTLD_LAZY
  | RTLD_NOLOAD
  deriving DecidableEq, Repr

/-- The dynamic linker as seen by the process.
`resident file` is the handle of the image already loaded under that name
(`0` when there is none), `disk file` the handle a loading `dlopen` would
produce, `dlsym h name` the address of a symbol (`0` when absent), `dlerror`
the diagnostic of the last failure, and `text a` the function whose code
starts at address `a`, when it has the signature
`bool(uint32_t op, void* callback, void* arg)`. -/
structure OS where
  resident : String → Nat
  disk : String → Nat
  dlsym : Nat → String → Nat
  dlerror : String
  text : Nat → Option (Nat → Nat → Nat → Bool)

/-- The libc call `dlopen(file, flags)`: an image that is already resident is
returned as it is; otherwise `RTLD_NOLOAD` makes the call return `NULL` without
loading anything, and without that flag the image is loaded from disk. -/
def dlopen (os : OS) (file : String) (flags : List DlFlag) : Nat × OS :=
  if os.resident file ≠ 0 then (os.resident file, os)
  else if DlFlag.RTLD_NOLOAD ∈ flags then (0, os)
  else (os.disk file, { os with resident := upd os.resident file (os.disk file) })

/-- Externally visible actions of the process, in program order. -/
inductive Event
  | lock (t : Nat)
  | unlock (t : Nat)
  | newObj (k : LoaderKind) (p : Nat)
  | dlopen (file : String) (flags : List DlFlag) (r : Nat)
  | dlsym (handle : Nat) (name : String) (r : Nat)
  | dlerror
  | fprintf (msg : String)
  | abort
  | store (k : LoaderKind) (p : Nat)
  | ret (t : Nat) (k : LoaderKind) (r : Nat)
  | call (addr op callback arg : Nat) (r : Bool)
  deriving DecidableEq, Repr

/-- The library name each derived constructor passes to `Loader(lib_name)`. -/
def libName : LoaderKind → String
  | .Hip => "libhip_hcc.so"
  | .Hcc => "libmcwamp_hsa.so"
  | .Kfd => "libkfdwrapper64.so"
  | .RocTx => "libroctx64.so"

/-- The body of each derived constructor: the assignments
`field = GetFun<field_t>("symbol")`, as pairs `(field, symbol)` in source
order. -/
def decls : LoaderKind → List (String × String)
  | .Hip =>
    [ ("RegisterApiCallback", "hipRegisterApiCallback"),
      ("RemoveApiCallback", "hipRemoveApiCallback"),
      ("RegisterActivityCallback", "hipRegisterActivityCallback"),
      ("RemoveActivityCallback", "hipRemoveActivityCallback"),
      ("KernelNameRef", "hipKernelNameRef"),
      ("ApiName", "hipApiName") ]
  | .Hcc =>
    [ ("InitActivityCallback", "InitActivityCallbackImpl"),
      ("EnableActivityCallback", "EnableActivityCallbackImpl"),
      ("GetCmdName", "GetCmdNameImpl") ]
  | .Kfd =>
    [ ("RegisterApiCallback", "RegisterApiCallback"),
      ("RemoveApiCallback", "RemoveApiCallback") ]
  | .RocTx =>
    [ ("RegisterApiCallback", "RegisterApiCallback"),
      ("RemoveApiCallback", "RemoveApiCallback") ]

/-- A loader object on the heap.  `handle_` is `none` until `Loader::Loader`
has assigned it; `fields` holds the function-pointer members assigned so far,
in assignment order. -/
structure LoaderObj where
  kind : LoaderKind
  handle_ : Option Nat
  fields : List (String × Nat)
  deriving DecidableEq, Repr

/-- Read a function-pointer member of a loader object. -/
def LoaderObj.field (o : LoaderObj) (name : String) : Option Nat :=
  (o.fields.find? (fun p => p.1 == name)).map (fun p => p.2)

/-- Program counter of a thread inside `Instance()`.
`load`: `obj = instance_.load(acquire)`; `lock`: the `lock_guard`;
`recheck`: the second load; `alloc`: the allocation of `new T()`;
`base`: the base constructor `Loader(lib_name)`; `body i`: the `i`-th
assignment of the derived constructor (past the last one: the value of the
new-expression is assigned to `obj`); `store`: `instance_.store(obj)`;
`unlock`: end of the guarded block; `ret`: the return statement;
`dead`: the thread called `abort()`. -/
inductive PC
  | idle
  | load
  | lock
  | recheck
  | alloc
  | base
  | body (i : Nat)
  | store
  | unlock
  | ret
  | dead
  deriving DecidableEq, Repr

/-- Thread-local state: which loader's `Instance()` is running, where, the
local `obj`, the object under construction, and the reference returned by
the last completed call. -/
structure Thread where
  kind : LoaderKind
  pc : PC
  obj : Nat
  this : Nat
  result : Option Nat
  deriving DecidableEq, Repr

/-- Process state.  `instance_ k` is the static atomic of class `k`,
`mutex_` the one static `Loader::mutex_` (its owner, when locked), `heap` and
`brk` the objects allocated by `new` and the next free address. -/
structure State where
  os : OS
  instance_ : LoaderKind → Nat
  mutex_ : Option Nat
  heap : Nat → Option LoaderObj
  brk : Nat
  threads : Nat → Thread
  aborted : Bool
  trace : List Event

/-- Process start: `LOADER_INSTANTIATE()` value-initialises the four atomics
and default-constructs the mutex; no thread is inside `Instance()`. -/
def init (os : OS) : State :=
  { os := os
    instance_ := fun _ => 0
    mutex_ := none
    heap := fun _ => none
    brk := 1
    threads := fun _ => { kind := .Hip, pc := .idle, obj := 0, this := 0, result := none }
    aborted := false
    trace := [] }

/-- The diagnostic printed by `Loader::Loader`. -/
def loadFailedMsg (lib_name err : String) : String :=
  "roctracer: Loading \x27" ++ lib_name ++ "\x27 failed, " ++ err ++ "\n"

/-- Outcome of the base constructor. -/
structure BaseResult where
  handle_ : Nat
  os : OS
  events : List Event
  aborted : Bool

/-- The base constructor `Loader::Loader(lib_name)`. -/
def Loader.Loader (os : OS) (lib_name : String) : BaseResult :=
  let r := dlopen os lib_name [DlFlag.RTLD_LAZY, DlFlag.RTLD_NOLOAD]
  if r.1 = 0 then
    { handle_ := r.1, os := r.2, aborted := true
      events := [Event.dlopen lib_name [DlFlag.RTLD_LAZY, DlFlag.RTLD_NOLOAD] r.1,
                 Event.dlerror, Event.fprintf (loadFailedMsg lib_name r.2.dlerror),
                 Event.abort] }
  else
    { handle_ := r.1, os := r.2, aborted := false
      events := [Event.dlopen lib_name [DlFlag.RTLD_LAZY, DlFlag.RTLD_NOLOAD] r.1] }

/-- The member `Loader::GetFun<fun_t>(fun_name)`: `dlsym` on the object's own
handle, the result cast but not checked. -/
def Loader.GetFun (os : OS) (self : LoaderObj) (fun_name : String) : Nat :=
  os.dlsym (self.handle_.getD 0) fun_name

/-- The return statement of `Instance()`: `HccLoader` returns `*obj`, the
other three classes return `*instance_`. -/
def returned (k : LoaderKind) (obj inst : Nat) : Nat :=
  match k with
  | .Hcc => obj
  | _ => inst

/-- One statement of `T::Instance()` executed by thread `t`; `none` when the
thread cannot move (not inside a call, waiting for the mutex, or the process
has aborted). -/
def step (s : State) (t : Nat) : Option State :=
  if s.aborted then none else
  let th := s.threads t
  match th.pc with
  | .idle => none
  | .dead => none
  | .load =>
    let obj := s.instance_ th.kind
    some { s with threads := upd s.threads t
                    { th with obj := obj, pc := if obj = 0 then .lock else .ret } }
  | .lock =>
    match s.mutex_ with
    | some _ => none
    | none =>
      some { s with mutex_ := some t
                    threads := upd s.threads t { th with pc := .recheck }
                    trace := s.trace ++ [Event.lock t] }
  | .recheck =>
    some { s with threads := upd s.threads t
                    { th with pc := if s.instance_ th.kind = 0 then .alloc else .unlock } }
  | .alloc =>
    some { s with heap := upd s.heap s.brk
                    (some { kind := th.kind, handle_ := none, fields := [] })
                  brk := s.brk + 1
                  threads := upd s.threads t { th with this := s.brk, pc := .base }
                  trace := s.trace ++ [Event.newObj th.kind s.brk] }
  | .base =>
    let r := Loader.Loader s.os (libName th.kind)
    some { s with os := r.os
                  heap := upd s.heap th.this
                    ((s.heap th.this).map (fun o => { o with handle_ := some r.handle_ }))
                  aborted := r.aborted
                  threads := upd s.threads t
                    { th with pc := if r.aborted then .dead else .body 0 }
                  trace := s.trace ++ r.events }
  | .body i =>
    match (decls th.kind).get? i with
    | some d =>
      let self := (s.heap th.this).getD { kind := th.kind, handle_ := none, fields := [] }
      let v := Loader.GetFun s.os self d.2
      some { s with heap := upd s.heap th.this
                      (some { self with fields := self.fields ++ [(d.1, v)] })
                    threads := upd s.threads t { th with pc := .body (i + 1) }
                    trace := s.trace ++ [Event.dlsym (self.handle_.getD 0) d.2 v] }
    | none =>
      some { s with threads := upd s.threads t { th with obj := th.this, pc := .store } }
  | .store =>
    some { s with instance_ := upd s.instance_ th.kind th.obj
                  threads := upd s.threads t { th with pc := .unlock }
                  trace := s.trace ++ [Event.store th.kind th.obj] }
  | .unlock =>
    some { s with mutex_ := none
                  threads := upd s.threads t { th with pc := .ret }
                  trace := s.trace ++ [Event.unlock t] }
  | .ret =>
    let r := returned th.kind th.obj (s.instance_ th.kind)
    some { s with threads := upd s.threads t { th with pc := .idle, result := some r }
                  trace := s.trace ++ [Event.ret t th.kind r] }

/-- Thread `t` enters `k::Instance()`; only a thread that is not inside a call
of a live process can do so. -/
def enter (k : LoaderKind) (t : Nat) (s : State) : Option State :=
  if s.aborted then none
  else if (s.threads t).pc = .idle then
    some { s with threads := upd s.threads t
                    { kind := k, pc := .load, obj := 0, this := 0, result := none } }
  else none

/-- Scheduler actions. -/
inductive Act
  | call (t : Nat) (k : LoaderKind)
  | step (t : Nat)
  deriving DecidableEq, Repr

/-- Perform one scheduler action. -/
def act (s : State) : Act → Option State
  | .call t k => enter k t s
  | .step t => step s t

/-- Perform a schedule, left to right. -/
def run (s : State) : List Act → Option State
  | [] => some s
  | a :: as => (act s a).bind (fun s1 => run s1 as)

/-- States reachable from process start under some interleaving. -/
def Reachable (os : OS) (s : State) : Prop :=
  ∃ sched, run (init os) sched = some s

/-- Let thread `t` execute up to `n` statements on its own. -/
def runThread : Nat → Nat → State → State
  | 0, _, s => s
  | n + 1, t, s =>
    match step s t with
    | none => s
    | some s1 => runThread n t s1

/-- A call of `k::Instance()` by thread `t` with no other thread scheduled
meanwhile.  The longest path executes `9 + (decls k).length` statements. -/
def Instance (k : LoaderKind) (t : Nat) (s : State) : State :=
  match enter k t s with
  | none => s
  | some s1 => runThread (9 + (decls k).length) t s1

/-- The static member `HccLoader::GetRef()`: the value of `instance_`, with
the state it leaves behind. -/
def HccLoader.GetRef (s : State) : Nat × State :=
  (s.instance_ .Hcc, s)

/-- A call through a function pointer of type
`bool (*)(uint32_t, void*, void*)`: the code at `addr` runs on the arguments;
`none` when there is no such function at that address. -/
def callPtr (s : State) (addr op callback arg : Nat) : Option (Bool × State) :=
  (s.os.text addr).map (fun f =>
    (f op callback arg,
     { s with trace := s.trace ++ [Event.call addr op callback arg (f op callback arg)] }))

/-- The expression `k::Instance().RegisterApiCallback(op, callback, arg)`
evaluated by thread `t`. -/
def callRegisterApiCallback (k : LoaderKind) (t : Nat) (s : State)
    (op callback arg : Nat) : Option (Bool × State) :=
  let s1 := Instance k t s
  ((s1.threads t).result).bind (fun r =>
    (s1.heap r).bind (fun o =>
      (o.field "RegisterApiCallback").bind (fun a =>
        callPtr s1 a op callback arg)))

/-- A test double for the dynamic linker: the listed libraries are resident
with the given handles, and every symbol of a resident library resolves to
`100 + ` the length of its name, except those listed in `missing`, which
resolve to null.  The code at address `119`, where `RegisterApiCallback`
resolves, is a stub of type `bool(uint32_t, void*, void*)` that returns `true`
exactly when `op` is `7`. -/
def testOS (libs : List (String × Nat)) (missing : List String) : OS :=
  { resident := fun f => ((libs.find? (fun p => p.1 == f)).map (fun p => p.2)).getD 0
    disk := fun _ => 0
    dlsym := fun h n => if h = 0 ∨ n ∈ missing then 0 else 100 + n.length
    dlerror := "cannot open shared object file"
    text := fun a => if a = 119 then some (fun op _ _ => decide (op = 7)) else none }

/-! ## Counters and the invariant -/

/-- The value the constructor of class `k` assigns for declaration `d`. -/
def resolved (os : OS) (h : Nat) (d : String × String) : String × Nat := (d.1, os.dlsym h d.2)

/-- The `dlsym` call the constructor makes for declaration `d`. -/
def resolveEvent (os : OS) (h : Nat) (d : String × String) : Event :=
  Event.dlsym h d.2 (os.dlsym h d.2)

/-- Recogniser of the evaluation of `new k()`. -/
def isNew (k : LoaderKind) : Event → Bool
  | .newObj k1 _ => decide (k1 = k)
  | _ => false

/-- Recogniser of a `dlopen` of the given file. -/
def isOpen (file : String) : Event → Bool
  | .dlopen f _ _ => decide (f = file)
  | _ => false

/-- How many objects of class `k` have been constructed (the constructor entered). -/
def news (k : LoaderKind) (tr : List Event) : Nat := tr.countP (isNew k)

/-- How many times the given file has been passed to `dlopen`. -/
def opens (file : String) (tr : List Event) : Nat := tr.countP (isOpen file)

/-- A finished object of class `k`: bound to the resident image, every member
assigned the result of resolving its symbol. -/
def Built (os : OS) (k : LoaderKind) (o : Option LoaderObj) : Prop :=
  os.resident (libName k) ≠ 0 ∧
  o = some ⟨k, some (os.resident (libName k)),
        (decls k).map (resolved os (os.resident (libName k)))⟩

/-- The thread is between the allocation and the publishing store (or died there). -/
def PC.isBuilding : PC → Bool
  | .base => true
  | .body _ => true
  | .store => true
  | .dead => true
  | _ => false

/-- One when the owner of the mutex is constructing an object of class `k`. -/
def building (s : State) (k : LoaderKind) : Nat :=
  match s.mutex_ with
  | some t => if (s.threads t).kind = k ∧ (s.threads t).pc.isBuilding = true then 1 else 0
  | none => 0

/-- One when the owner of the mutex has allocated an object of class `k` and
not yet run the base constructor. -/
def pending (s : State) (k : LoaderKind) : Nat :=
  match s.mutex_ with
  | some t => if (s.threads t).kind = k ∧ (s.threads t).pc = .base then 1 else 0
  | none => 0

/-- The address is allocated, not null and not published. -/
def Fresh (s : State) (p : Nat) : Prop :=
  1 ≤ p ∧ p < s.brk ∧ ∀ k, s.instance_ k < p

/-- What is known about a thread at each program point. -/
def ThreadInv (s : State) (t : Nat) : Prop :=
  match (s.threads t).pc with
  | .idle => s.mutex_ ≠ some t
  | .load => s.mutex_ ≠ some t
  | .lock => s.mutex_ ≠ some t ∧ (s.threads t).obj = 0
  | .ret => s.mutex_ ≠ some t ∧ s.instance_ (s.threads t).kind ≠ 0 ∧
      ((s.threads t).obj = 0 ∨ (s.threads t).obj = s.instance_ (s.threads t).kind)
  | .recheck => s.mutex_ = some t ∧ (s.threads t).obj = 0
  | .alloc => s.mutex_ = some t ∧ s.instance_ (s.threads t).kind = 0
  | .base => s.mutex_ = some t ∧ s.instance_ (s.threads t).kind = 0 ∧
      Fresh s (s.threads t).this ∧
      s.heap (s.threads t).this = some ⟨(s.threads t).kind, none, []⟩
  | .body i => s.mutex_ = some t ∧ s.instance_ (s.threads t).kind = 0 ∧
      Fresh s (s.threads t).this ∧ i ≤ (decls (s.threads t).kind).length ∧
      s.os.resident (libName (s.threads t).kind) ≠ 0 ∧
      s.heap (s.threads t).this = some ⟨(s.threads t).kind,
        some (s.os.resident (libName (s.threads t).kind)),
        ((decls (s.threads t).kind).take i).map
          (resolved s.os (s.os.resident (libName (s.threads t).kind)))⟩
  | .store => s.mutex_ = some t ∧ s.instance_ (s.threads t).kind = 0 ∧
      Fresh s (s.threads t).this ∧ (s.threads t).obj = (s.threads t).this ∧
      Built s.os (s.threads t).kind (s.heap (s.threads t).this)
  | .unlock => s.mutex_ = some t ∧ s.instance_ (s.threads t).kind ≠ 0 ∧
      ((s.threads t).obj = 0 ∨ (s.threads t).obj = s.instance_ (s.threads t).kind)
  | .dead => s.mutex_ = some t ∧ s.instance_ (s.threads t).kind = 0 ∧ s.aborted = true

/-- The invariant of the interleaved executions of the four `Instance()`
functions over a process started with linker `os`. -/
structure Inv (os : OS) (s : State) : Prop where
  os_eq : s.os = os
  brk_pos : 1 ≤ s.brk
  inst_lt : ∀ k, s.instance_ k < s.brk
  built : ∀ k, s.instance_ k ≠ 0 → Built s.os k (s.heap (s.instance_ k))
  thr : ∀ t, ThreadInv s t
  news_eq : ∀ k, news k s.trace = (if s.instance_ k = 0 then 0 else 1) + building s k
  opens_eq : ∀ k, opens (libName k) s.trace + pending s k = news k s.trace
  rets : ∀ t k r, Event.ret t k r ∈ s.trace →
    (r = s.instance_ k ∧ r ≠ 0) ∨ (k = .Hcc ∧ r = 0)
  stores : ∀ k, s.instance_ k ≠ 0 → Event.store k (s.instance_ k) ∈ s.trace

/-! ## Further counters, test linkers and schedules -/

/-- Recogniser of a call through a resolved function pointer. -/
def isCall : Event → Bool
  | .call _ _ _ _ _ => true
  | _ => false

/-- How many calls through resolved function pointers have been made. -/
def calls (tr : List Event) : Nat := tr.countP isCall

/-- Recogniser of a `dlsym` call. -/
def isResolve : Event → Bool
  | .dlsym _ _ _ => true
  | _ => false

/-- How many `dlsym` calls have been made. -/
def resolves (tr : List Event) : Nat := tr.countP isResolve

/-- The `dlsym` calls that the constructions started so far comprise: one per
declared symbol of each object constructed. -/
def budget (tr : List Event) : Nat :=
  (decls .Hip).length * news .Hip tr + (decls .Hcc).length * news .Hcc tr +
  (decls .Kfd).length * news .Kfd tr + (decls .RocTx).length * news .RocTx tr

/-- The `dlsym` calls the constructor run by the owner of the mutex has still
to make (all of them for a constructor that aborted before its body). -/
def remaining (s : State) : Nat :=
  match s.mutex_ with
  | some t =>
    match (s.threads t).pc with
    | .base => (decls (s.threads t).kind).length
    | .dead => (decls (s.threads t).kind).length
    | .body i => (decls (s.threads t).kind).length - i
    | _ => 0
  | none => 0

/-- Every `dlsym` call belongs to a construction. -/
def ResInv (s : State) : Prop :=
  resolves s.trace + remaining s = budget s.trace

/-- A linker in which only the HCC runtime is resident. -/
def hccOS : OS := testOS [("libmcwamp_hsa.so", 7)] []

/-- Two threads enter `HccLoader::Instance()` and both load a null
`instance_`; thread 0 then runs to its return, and thread 1 after it. -/
def raceSched : List Act :=
  [.call 0 .Hcc, .call 1 .Hcc, .step 0, .step 1,
   .step 0, .step 0, .step 0, .step 0, .step 0, .step 0, .step 0, .step 0, .step 0,
   .step 0, .step 0,
   .step 1, .step 1, .step 1, .step 1]

/-- A linker in which only the KFD wrapper is resident, all symbols present. -/
def kfdOS : OS := testOS [("libkfdwrapper64.so", 7)] []

/-- A linker in which only the HIP runtime is resident, all symbols present. -/
def hipOS : OS := testOS [("libhip_hcc.so", 5)] []

/-- A linker in which the KFD wrapper is resident but does not export
`RemoveApiCallback`. -/
def missingSymOS : OS := testOS [("libkfdwrapper64.so", 7)] ["RemoveApiCallback"]

/-- Thread 0 enters `HipLoader::Instance()` and takes the lock; thread 1 enters
`KfdLoader::Instance()` and reaches its own lock statement. -/
def contendSched : List Act :=
  [.call 0 .Hip, .call 1 .Kfd, .step 0, .step 0, .step 1]

/-! ## Sequential calls in closed form -/

@[simp] theorem upd_same {α β : Type} [DecidableEq α] (f : α → β) (a : α) (b : β) :
    upd f a b a = b := by simp [upd]

theorem upd_ne {α β : Type} [DecidableEq α] (f : α → β) {a x : α} (b : β) (h : x ≠ a) :
    upd f a b x = f x := by simp [upd, h]

@[simp] theorem upd_upd {α β : Type} [DecidableEq α] (f : α → β) (a : α) (b c : β) :
    upd (upd f a b) a c = upd f a c := by
  funext x; by_cases h : x = a <;> simp [upd, h]

theorem upd_eq_self {α β : Type} [DecidableEq α] (f : α → β) (a : α) (b : β) (h : f a = b) :
    upd f a b = f := by
  funext x; by_cases hx : x = a
  · subst hx; simp [h]
  · simp [upd, hx]

theorem runThread_stuck (n t : Nat) (s : State) (h : step s t = none) : runThread n t s = s := by
  cases n <;> simp [runThread, h]

theorem runThread_add (a b t : Nat) (s : State) :
    runThread (a + b) t s = runThread b t (runThread a t s) := by
  induction a generalizing s with
  | zero => simp [runThread]
  | succ a ih =>
    rw [Nat.succ_add]
    cases h : step s t with
    | none => simp [runThread, h, runThread_stuck]
    | some s1 => simp [runThread, h, ih]

theorem body_loop (n : Nat) : ∀ (i : Nat) (s : State) (t : Nat) (k : LoaderKind) (h p o : Nat)
    (r : Option Nat) (fs : List (String × Nat)),
    i + n = (decls k).length → s.aborted = false →
    s.threads t = { kind := k, pc := .body i, obj := o, this := p, result := r } →
    s.heap p = some { kind := k, handle_ := some h, fields := fs } →
    runThread n t s =
      { s with
        heap := upd s.heap p
          (some ⟨k, some h, fs ++ ((decls k).drop i).map (resolved s.os h)⟩)
        threads := upd s.threads t ⟨k, .body (decls k).length, o, p, r⟩
        trace := s.trace ++ ((decls k).drop i).map (resolveEvent s.os h) } := by
  induction n with
  | zero =>
    intro i s t k h p o r fs hi hab hth hhp
    obtain ⟨os, inst, m, heap, brk, threads, ab, trace⟩ := s
    simp only at hab hth hhp
    simp only [Nat.add_zero] at hi
    subst hi
    simp [runThread, upd_eq_self, hth, hhp]
  | succ n ih =>
    intro i s t k h p o r fs hi hab hth hhp
    have hlt : i < (decls k).length := by omega
    obtain ⟨os, inst, m, heap, brk, threads, ab, trace⟩ := s
    simp only at hab hth hhp
    subst hab
    have hget : (decls k)[i]? = some ((decls k)[i]) := List.getElem?_eq_getElem hlt
    have hstep : step ⟨os, inst, m, heap, brk, threads, false, trace⟩ t = some
        ⟨os, inst, m, upd heap p (some ⟨k, some h, fs ++ [((decls k)[i].1, os.dlsym h (decls k)[i].2)]⟩),
          brk, upd threads t ⟨k, .body (i + 1), o, p, r⟩, false,
          trace ++ [Event.dlsym h (decls k)[i].2 (os.dlsym h (decls k)[i].2)]⟩ := by
      simp [step, hth, hget, hhp, Loader.GetFun]
    rw [runThread, hstep]
    dsimp only
    rw [ih (i + 1) _ t k h p o r (fs ++ [((decls k)[i].1, os.dlsym h (decls k)[i].2)])
      (by omega) rfl (by simp) (by simp)]
    rw [List.drop_eq_getElem_cons hlt]
    simp only [List.map_cons, List.append_assoc, List.singleton_append, List.cons_append,
      List.nil_append, resolved, resolveEvent, upd_upd]

@[simp] theorem returned_self (k : LoaderKind) (p : Nat) : returned k p p = p := by
  cases k <;> rfl

theorem dlopen_noload (os : OS) (file : String) :
    dlopen os file [DlFlag.RTLD_LAZY, DlFlag.RTLD_NOLOAD] = (os.resident file, os) := by
  unfold dlopen
  by_cases h : os.resident file = 0 <;> simp [h]

theorem Instance_fast (k : LoaderKind) (t : Nat) (s : State)
    (hab : s.aborted = false) (hid : (s.threads t).pc = .idle) (hi : s.instance_ k ≠ 0) :
    Instance k t s =
      { s with
        threads := upd s.threads t ⟨k, .idle, s.instance_ k, 0, some (s.instance_ k)⟩
        trace := s.trace ++ [Event.ret t k (s.instance_ k)] } := by
  obtain ⟨os, inst, m, heap, brk, threads, ab, trace⟩ := s
  simp only at hab hid hi
  subst hab
  have h9 : 9 + (decls k).length = 2 + ((decls k).length + 7) := by omega
  simp only [Instance, enter, hid, h9, Bool.false_eq_true, if_false, if_true]
  rw [runThread_add]
  have h2 : runThread 2 t ⟨os, inst, m, heap, brk,
        upd threads t ⟨k, .load, 0, 0, none⟩, false, trace⟩ =
      ⟨os, inst, m, heap, brk, upd threads t ⟨k, .idle, inst k, 0, some (inst k)⟩, false,
        trace ++ [Event.ret t k (inst k)]⟩ := by
    simp [runThread, step, hi]
  rw [h2, runThread_stuck]
  simp [step]

theorem Instance_first_abort (k : LoaderKind) (t : Nat) (s : State)
    (hab : s.aborted = false) (hid : (s.threads t).pc = .idle) (hm : s.mutex_ = none)
    (hi : s.instance_ k = 0) (hh : s.os.resident (libName k) = 0) :
    Instance k t s =
      { s with
        mutex_ := some t
        heap := upd s.heap s.brk (some ⟨k, some 0, []⟩)
        brk := s.brk + 1
        threads := upd s.threads t ⟨k, .dead, 0, s.brk, none⟩
        aborted := true
        trace := s.trace ++
          [Event.lock t, Event.newObj k s.brk,
           Event.dlopen (libName k) [DlFlag.RTLD_LAZY, DlFlag.RTLD_NOLOAD] 0,
           Event.dlerror, Event.fprintf (loadFailedMsg (libName k) s.os.dlerror),
           Event.abort] } := by
  obtain ⟨os, inst, m, heap, brk, threads, ab, trace⟩ := s
  simp only at hab hid hi hm hh
  subst hab hm
  have h9 : 9 + (decls k).length = 5 + ((decls k).length + 4) := by omega
  simp only [Instance, enter, hid, h9, Bool.false_eq_true, if_false, if_true]
  rw [runThread_add]
  have h5 : runThread 5 t ⟨os, inst, none, heap, brk,
        upd threads t ⟨k, .load, 0, 0, none⟩, false, trace⟩ =
      ⟨os, inst, some t, upd heap brk (some ⟨k, some 0, []⟩), brk + 1,
        upd threads t ⟨k, .dead, 0, brk, none⟩, true,
        trace ++ [Event.lock t, Event.newObj k brk,
          Event.dlopen (libName k) [DlFlag.RTLD_LAZY, DlFlag.RTLD_NOLOAD] 0,
          Event.dlerror, Event.fprintf (loadFailedMsg (libName k) os.dlerror),
          Event.abort]⟩ := by
    simp [runThread, step, hi, Loader.Loader, dlopen_noload, hh]
  rw [h5, runThread_stuck]
  simp [step]

theorem Instance_first_ok (k : LoaderKind) (t : Nat) (s : State)
    (hab : s.aborted = false) (hid : (s.threads t).pc = .idle) (hm : s.mutex_ = none)
    (hi : s.instance_ k = 0) (hh : s.os.resident (libName k) ≠ 0) :
    Instance k t s =
      { s with
        instance_ := upd s.instance_ k s.brk
        heap := upd s.heap s.brk (some ⟨k, some (s.os.resident (libName k)),
          (decls k).map (resolved s.os (s.os.resident (libName k)))⟩)
        brk := s.brk + 1
        threads := upd s.threads t ⟨k, .idle, s.brk, s.brk, some s.brk⟩
        trace := s.trace ++
          ([Event.lock t, Event.newObj k s.brk,
            Event.dlopen (libName k) [DlFlag.RTLD_LAZY, DlFlag.RTLD_NOLOAD]
              (s.os.resident (libName k))] ++
           (decls k).map (resolveEvent s.os (s.os.resident (libName k))) ++
           [Event.store k s.brk, Event.unlock t, Event.ret t k s.brk]) } := by
  obtain ⟨os, inst, m, heap, brk, threads, ab, trace⟩ := s
  simp only at hab hid hi hm hh
  subst hab hm
  have h9 : 9 + (decls k).length = 5 + ((decls k).length + 4) := by omega
  simp only [Instance, enter, hid, h9, Bool.false_eq_true, if_false, if_true]
  rw [runThread_add, runThread_add]
  have h5 : runThread 5 t ⟨os, inst, none, heap, brk,
        upd threads t ⟨k, .load, 0, 0, none⟩, false, trace⟩ =
      ⟨os, inst, some t, upd heap brk (some ⟨k, some (os.resident (libName k)), []⟩), brk + 1,
        upd threads t ⟨k, .body 0, 0, brk, none⟩, false,
        trace ++ [Event.lock t, Event.newObj k brk,
          Event.dlopen (libName k) [DlFlag.RTLD_LAZY, DlFlag.RTLD_NOLOAD]
            (os.resident (libName k))]⟩ := by
    simp [runThread, step, hi, Loader.Loader, dlopen_noload, hh]
  rw [h5, body_loop (decls k).length 0 _ t k (os.resident (libName k)) brk 0 none []
    (by simp) rfl (by simp) (by simp)]
  simp [runThread, step]

theorem inv_init (os : OS) : Inv os (init os) := by
  constructor <;> simp [init, ThreadInv, news, opens, building, pending]

theorem libName_injective (a b : LoaderKind) (h : libName a = libName b) : a = b := by
  cases a <;> cases b <;> first | rfl | exact absurd h (by decide)

/-- A step of another thread that leaves the shared variables alone keeps a
thread's invariant. -/
theorem ThreadInv_congr (s s1 : State) (t : Nat) (hth : s1.threads t = s.threads t)
    (hm : s1.mutex_ = s.mutex_) (hi : s1.instance_ = s.instance_) (hh : s1.heap = s.heap)
    (hb : s1.brk = s.brk) (ha : s1.aborted = s.aborted) (ho : s1.os = s.os)
    (h : ThreadInv s t) : ThreadInv s1 t := by
  unfold ThreadInv Fresh at *
  rw [hth, hm, hi, hh, hb, ha, ho]
  exact h

/-- A step of the owner of the mutex (or the acquisition of the free mutex) by
thread `t` keeps the invariant of every other thread. -/
theorem ThreadInv_other (s s1 : State) (t u : Nat) (hne : u ≠ t)
    (hth : s1.threads u = s.threads u)
    (hm : s.mutex_ = none ∨ s.mutex_ = some t)
    (hm1 : s1.mutex_ = none ∨ s1.mutex_ = some t)
    (hi : ∀ k, s.instance_ k ≠ 0 → s1.instance_ k = s.instance_ k)
    (h : ThreadInv s u) : ThreadInv s1 u := by
  have e1 : s.mutex_ ≠ some u := by
    rcases hm with hm | hm <;> simp [hm]; exact fun h => hne h.symm
  have e2 : s1.mutex_ ≠ some u := by
    rcases hm1 with hm1 | hm1 <;> simp [hm1]; exact fun h => hne h.symm
  unfold ThreadInv at *
  rw [hth]
  cases hpc : (s.threads u).pc <;> simp only [hpc] at h ⊢ <;>
    first
    | exact e2
    | exact ⟨e2, h.2⟩
    | exact ⟨e2, by rw [hi _ h.2.1]; exact h.2.1, by rw [hi _ h.2.1]; exact h.2.2⟩
    | exact absurd h e1
    | exact absurd h.1 e1

/-! ## The invariant is preserved by every step -/

theorem building_congr (s s1 : State) (k : LoaderKind) (hm : s1.mutex_ = s.mutex_)
    (hth : ∀ u, s.mutex_ = some u → s1.threads u = s.threads u) :
    building s1 k = building s k ∧ pending s1 k = pending s k := by
  unfold building pending
  rw [hm]
  cases h : s.mutex_ with
  | none => simp
  | some u => simp [hth u h]

theorem news_append_other (k : LoaderKind) (tr : List Event) (e : Event)
    (h : isNew k e = false) : news k (tr ++ [e]) = news k tr := by
  simp [news, List.countP_append, h]

theorem opens_append_other (f : String) (tr : List Event) (e : Event)
    (h : isOpen f e = false) : opens f (tr ++ [e]) = opens f tr := by
  simp [opens, List.countP_append, h]

theorem inv_enter (os : OS) (k : LoaderKind) (t : Nat) (s s1 : State) (hI : Inv os s)
    (h : enter k t s = some s1) : Inv os s1 := by
  unfold enter at h
  by_cases hab : s.aborted = true
  · rw [if_pos hab] at h; cases h
  rw [if_neg hab] at h
  by_cases hpc : (s.threads t).pc = .idle
  · rw [if_pos hpc, Option.some.injEq] at h
    subst h
    have hT := hI.thr t
    simp only [ThreadInv, hpc] at hT
    have hb := fun k1 => building_congr s
      { s with threads := upd s.threads t ⟨k, .load, 0, 0, none⟩ } k1 rfl
      (fun u hu => by
        have : u ≠ t := fun e => hT (e ▸ hu)
        simp [upd_ne _ _ this])
    refine ⟨hI.os_eq, hI.brk_pos, hI.inst_lt, hI.built, ?_, ?_, ?_, hI.rets, hI.stores⟩
    · intro u
      by_cases hu : u = t
      · subst hu; simpa [ThreadInv] using hT
      · exact ThreadInv_congr s _ u (by simp [upd_ne _ _ hu]) rfl rfl rfl rfl rfl rfl (hI.thr u)
    · intro k1; rw [(hb k1).1]; exact hI.news_eq k1
    · intro k1; rw [(hb k1).2]; exact hI.opens_eq k1
  · rw [if_neg hpc] at h; cases h


theorem mem_of_mem_append_single {e e1 : Event} {tr : List Event} (h : e ∈ tr ++ [e1])
    (hne : e ≠ e1) : e ∈ tr := by
  simp only [List.mem_append, List.mem_singleton] at h
  rcases h with h | h
  · exact h
  · exact absurd h hne

theorem inv_step_load (os : OS) (t : Nat) (s : State) (hI : Inv os s)
    (hpc : (s.threads t).pc = .load) :
    Inv os { s with threads := upd s.threads t
                      { s.threads t with obj := s.instance_ (s.threads t).kind,
                                         pc := if s.instance_ (s.threads t).kind = 0 then .lock else .ret } } := by
  have hT := hI.thr t
  simp only [ThreadInv, hpc] at hT
  have hb := fun k1 => building_congr s
    { s with threads := upd s.threads t
                      { s.threads t with obj := s.instance_ (s.threads t).kind,
                                         pc := if s.instance_ (s.threads t).kind = 0 then .lock else .ret } } k1 rfl
    (fun u hu => by
      have : u ≠ t := fun e => hT (e ▸ hu)
      simp [upd_ne _ _ this])
  refine ⟨hI.os_eq, hI.brk_pos, hI.inst_lt, hI.built, ?_, ?_, ?_, hI.rets, hI.stores⟩
  · intro u
    by_cases hu : u = t
    · subst hu
      by_cases h0 : s.instance_ (s.threads u).kind = 0
      · simpa [ThreadInv, h0] using hT
      · simp [ThreadInv, h0, hT]
    · exact ThreadInv_congr s _ u (by simp [upd_ne _ _ hu]) rfl rfl rfl rfl rfl rfl (hI.thr u)
  · intro k1; rw [(hb k1).1]; exact hI.news_eq k1
  · intro k1; rw [(hb k1).2]; exact hI.opens_eq k1

theorem inv_step_lock (os : OS) (t : Nat) (s : State) (hI : Inv os s)
    (hpc : (s.threads t).pc = .lock) (hm : s.mutex_ = none) :
    Inv os { s with mutex_ := some t
                    threads := upd s.threads t { s.threads t with pc := .recheck }
                    trace := s.trace ++ [Event.lock t] } := by
  have hT := hI.thr t
  simp only [ThreadInv, hpc] at hT
  have hn := hI.news_eq
  have ho := hI.opens_eq
  simp only [building, pending, hm] at hn ho
  refine ⟨hI.os_eq, hI.brk_pos, hI.inst_lt, hI.built, ?_, ?_, ?_, ?_, ?_⟩
  · intro u
    by_cases hu : u = t
    · subst hu; simp [ThreadInv, hT.2]
    · exact ThreadInv_other s _ t u hu (by simp [upd_ne _ _ hu]) (Or.inl hm) (Or.inr rfl)
        (fun _ _ => rfl) (hI.thr u)
  · intro k1
    simp [building, PC.isBuilding, news_append_other, isNew, hn k1]
  · intro k1
    simp [pending, news_append_other, opens_append_other, isNew, isOpen, ho k1]
  · intro u k1 r hmem
    exact hI.rets u k1 r (mem_of_mem_append_single hmem (by simp))
  · intro k1 hk
    exact List.mem_append_left _ (hI.stores k1 hk)


theorem inv_step_recheck (os : OS) (t : Nat) (s : State) (hI : Inv os s)
    (hpc : (s.threads t).pc = .recheck) :
    Inv os { s with threads := upd s.threads t
                      { s.threads t with
                        pc := if s.instance_ (s.threads t).kind = 0 then .alloc else .unlock } } := by
  have hT := hI.thr t
  simp only [ThreadInv, hpc] at hT
  obtain ⟨hm, hobj⟩ := hT
  have hn := hI.news_eq
  have ho := hI.opens_eq
  simp only [building, pending, hm, hpc, PC.isBuilding] at hn ho
  refine ⟨hI.os_eq, hI.brk_pos, hI.inst_lt, hI.built, ?_, ?_, ?_, hI.rets, hI.stores⟩
  · intro u
    by_cases hu : u = t
    · subst hu
      by_cases h0 : s.instance_ (s.threads u).kind = 0
      · simp [ThreadInv, h0, hm]
      · simp [ThreadInv, h0, hm, hobj]
    · exact ThreadInv_other s _ t u hu (by simp [upd_ne _ _ hu]) (Or.inr hm) (Or.inr hm)
        (fun _ _ => rfl) (hI.thr u)
  · intro k1
    by_cases h0 : s.instance_ (s.threads t).kind = 0 <;>
      simpa [building, hm, h0, PC.isBuilding] using hn k1
  · intro k1
    by_cases h0 : s.instance_ (s.threads t).kind = 0 <;>
      simpa [pending, hm, h0] using ho k1


theorem inv_step_alloc (os : OS) (t : Nat) (s : State) (hI : Inv os s)
    (hpc : (s.threads t).pc = .alloc) :
    Inv os { s with heap := upd s.heap s.brk
                      (some { kind := (s.threads t).kind, handle_ := none, fields := [] })
                    brk := s.brk + 1
                    threads := upd s.threads t { s.threads t with this := s.brk, pc := .base }
                    trace := s.trace ++ [Event.newObj (s.threads t).kind s.brk] } := by
  have hT := hI.thr t
  simp only [ThreadInv, hpc] at hT
  have hn := hI.news_eq
  have ho := hI.opens_eq
  simp only [building, pending, hT.1, hpc, PC.isBuilding] at hn ho
  refine ⟨hI.os_eq, Nat.le_succ_of_le hI.brk_pos, fun k => Nat.lt_succ_of_lt (hI.inst_lt k),
    ?_, ?_, ?_, ?_, ?_, ?_⟩
  · intro k hk
    have := hI.built k hk
    have hne : s.instance_ k ≠ s.brk := Nat.ne_of_lt (hI.inst_lt k)
    simpa [upd_ne _ _ hne] using this
  · intro u
    by_cases hu : u = t
    · subst hu
      simp [ThreadInv, hT.1, hT.2, Fresh, hI.brk_pos, hI.inst_lt]
    · exact ThreadInv_other s _ t u hu (by simp [upd_ne _ _ hu]) (Or.inr hT.1) (Or.inr hT.1)
        (fun _ _ => rfl) (hI.thr u)
  · intro k1
    have := hn k1
    by_cases hk : (s.threads t).kind = k1
    · simp [building, hT.1, PC.isBuilding, news, List.countP_append, isNew, hk] at this ⊢
      omega
    · simp [building, hT.1, PC.isBuilding, news, List.countP_append, isNew, hk] at this ⊢
      omega
  · intro k1
    have := ho k1
    by_cases hk : (s.threads t).kind = k1
    · simp [pending, hT.1, news, opens, List.countP_append, isNew, isOpen, hk] at this ⊢
      omega
    · simp [pending, hT.1, news, opens, List.countP_append, isNew, isOpen, hk] at this ⊢
      omega
  · intro u k1 r hmem
    exact hI.rets u k1 r (mem_of_mem_append_single hmem (by simp))
  · intro k1 hk
    exact List.mem_append_left _ (hI.stores k1 hk)

theorem inv_step_unlock (os : OS) (t : Nat) (s : State) (hI : Inv os s)
    (hpc : (s.threads t).pc = .unlock) :
    Inv os { s with mutex_ := none
                    threads := upd s.threads t { s.threads t with pc := .ret }
                    trace := s.trace ++ [Event.unlock t] } := by
  have hT := hI.thr t
  simp only [ThreadInv, hpc] at hT
  have hn := hI.news_eq
  have ho := hI.opens_eq
  simp only [building, pending, hT.1, hpc, PC.isBuilding] at hn ho
  refine ⟨hI.os_eq, hI.brk_pos, hI.inst_lt, hI.built, ?_, ?_, ?_, ?_, ?_⟩
  · intro u
    by_cases hu : u = t
    · subst hu
      simp [ThreadInv, hT.2]
    · exact ThreadInv_other s _ t u hu (by simp [upd_ne _ _ hu]) (Or.inr hT.1) (Or.inl rfl)
        (fun _ _ => rfl) (hI.thr u)
  · intro k1
    simpa [building, news_append_other, isNew] using hn k1
  · intro k1
    simpa [pending, news_append_other, opens_append_other, isNew, isOpen] using ho k1
  · intro u k1 r hmem
    exact hI.rets u k1 r (mem_of_mem_append_single hmem (by simp))
  · intro k1 hk
    exact List.mem_append_left _ (hI.stores k1 hk)

theorem inv_step_ret (os : OS) (t : Nat) (s : State) (hI : Inv os s)
    (hpc : (s.threads t).pc = .ret) :
    Inv os { s with
      threads := upd s.threads t
        { s.threads t with
          pc := .idle
          result := some (returned (s.threads t).kind (s.threads t).obj
                      (s.instance_ (s.threads t).kind)) }
      trace := s.trace ++ [Event.ret t (s.threads t).kind
                (returned (s.threads t).kind (s.threads t).obj
                  (s.instance_ (s.threads t).kind))] } := by
  have hT := hI.thr t
  simp only [ThreadInv, hpc] at hT
  have hb := fun k1 => building_congr s
    { s with
      threads := upd s.threads t
        { s.threads t with
          pc := .idle
          result := some (returned (s.threads t).kind (s.threads t).obj
                      (s.instance_ (s.threads t).kind)) }
      trace := s.trace ++ [Event.ret t (s.threads t).kind
                (returned (s.threads t).kind (s.threads t).obj
                  (s.instance_ (s.threads t).kind))] } k1 rfl
    (fun u hu => by
      have : u ≠ t := fun e => hT.1 (e ▸ hu)
      simp [upd_ne _ _ this])
  refine ⟨hI.os_eq, hI.brk_pos, hI.inst_lt, hI.built, ?_, ?_, ?_, ?_, ?_⟩
  · intro u
    by_cases hu : u = t
    · subst hu
      simp [ThreadInv, hT.1]
    · exact ThreadInv_congr s _ u (by simp [upd_ne _ _ hu]) rfl rfl rfl rfl rfl rfl (hI.thr u)
  · intro k1
    rw [(hb k1).1]
    simpa [news_append_other, isNew] using hI.news_eq k1
  · intro k1
    rw [(hb k1).2]
    simpa [news_append_other, opens_append_other, isNew, isOpen] using hI.opens_eq k1
  · intro u k1 r hmem
    simp only [List.mem_append, List.mem_singleton] at hmem
    rcases hmem with hmem | hmem
    · exact hI.rets u k1 r hmem
    · injection hmem with e1 e2 e3
      subst e2 e3
      obtain ⟨_, hne, hobj⟩ := hT
      by_cases hkk : (s.threads t).kind = .Hcc
      · rw [hkk] at hne hobj ⊢
        rw [show returned LoaderKind.Hcc (s.threads t).obj (s.instance_ LoaderKind.Hcc)
          = (s.threads t).obj from rfl]
        rcases hobj with hobj | hobj
        · exact Or.inr ⟨rfl, hobj⟩
        · exact Or.inl ⟨hobj, hobj ▸ hne⟩
      · have : returned (s.threads t).kind (s.threads t).obj (s.instance_ (s.threads t).kind)
            = s.instance_ (s.threads t).kind := by
          cases hk2 : (s.threads t).kind <;> simp_all [returned]
        rw [this]
        exact Or.inl ⟨rfl, hne⟩
  · intro k1 hk
    exact List.mem_append_left _ (hI.stores k1 hk)


theorem inv_step_store (os : OS) (t : Nat) (s : State) (hI : Inv os s)
    (hpc : (s.threads t).pc = .store) :
    Inv os { s with instance_ := upd s.instance_ (s.threads t).kind (s.threads t).obj
                    threads := upd s.threads t { s.threads t with pc := .unlock }
                    trace := s.trace ++ [Event.store (s.threads t).kind (s.threads t).obj] } := by
  have hT := hI.thr t
  simp only [ThreadInv, hpc] at hT
  obtain ⟨hm, h0, ⟨hp1, hp2, hp3⟩, hobj, hbuilt⟩ := hT
  have hn := hI.news_eq
  have ho := hI.opens_eq
  simp only [building, pending, hm, hpc, PC.isBuilding] at hn ho
  have hpos : (s.threads t).this ≠ 0 := by omega
  refine ⟨hI.os_eq, hI.brk_pos, ?_, ?_, ?_, ?_, ?_, ?_, ?_⟩
  · intro k
    by_cases hk : k = (s.threads t).kind
    · subst hk; simpa [hobj] using hp2
    · simpa [upd_ne _ _ hk] using hI.inst_lt k
  · intro k
    by_cases hk : k = (s.threads t).kind
    · subst hk; intro _; simpa [hobj] using hbuilt
    · simpa [upd_ne _ _ hk] using hI.built k
  · intro u
    by_cases hu : u = t
    · subst hu
      simp [ThreadInv, hm, hobj, hpos]
    · refine ThreadInv_other s _ t u hu (by simp [upd_ne _ _ hu]) (Or.inr hm) (Or.inr hm)
        ?_ (hI.thr u)
      intro k hk
      have hkk : k ≠ (s.threads t).kind := fun e => hk (e ▸ h0)
      simp [upd_ne _ _ hkk]
  · intro k1
    have := hn k1
    by_cases hk : k1 = (s.threads t).kind
    · subst hk
      simp [h0] at this
      simp [building, hm, PC.isBuilding, news_append_other, isNew, hobj, hpos, this]
    · have hk2 : ¬ (s.threads t).kind = k1 := fun e => hk e.symm
      simp [hk2] at this
      simp [building, hm, PC.isBuilding, news_append_other, isNew, upd_ne _ _ hk, this]
  · intro k1
    simpa [pending, hm, hpc, news_append_other, opens_append_other, isNew, isOpen] using ho k1
  · intro u k1 r hmem
    have hmem1 := mem_of_mem_append_single hmem (by simp)
    rcases hI.rets u k1 r hmem1 with this | this
    · by_cases hkk : k1 = (s.threads t).kind
      · subst hkk
        exact absurd (this.1.trans h0) this.2
      · exact Or.inl (by simpa [upd_ne _ _ hkk] using this)
    · exact Or.inr this
  · intro k1 hk
    by_cases hkk : k1 = (s.threads t).kind
    · subst hkk; simp
    · simp only [upd_ne _ _ hkk] at hk ⊢
      exact List.mem_append_left _ (hI.stores k1 hk)


theorem Loader_ok (os : OS) (lib : String) (h : os.resident lib ≠ 0) :
    Loader.Loader os lib =
      ⟨os.resident lib, os,
        [Event.dlopen lib [DlFlag.RTLD_LAZY, DlFlag.RTLD_NOLOAD] (os.resident lib)], false⟩ := by
  simp [Loader.Loader, dlopen_noload, h]

theorem Loader_fail (os : OS) (lib : String) (h : os.resident lib = 0) :
    Loader.Loader os lib =
      ⟨0, os,
        [Event.dlopen lib [DlFlag.RTLD_LAZY, DlFlag.RTLD_NOLOAD] 0, Event.dlerror,
         Event.fprintf (loadFailedMsg lib os.dlerror), Event.abort], true⟩ := by
  simp [Loader.Loader, dlopen_noload, h]

theorem inv_step_base (os : OS) (t : Nat) (s : State) (hI : Inv os s)
    (hpc : (s.threads t).pc = .base) :
    Inv os { s with
      os := (Loader.Loader s.os (libName (s.threads t).kind)).os
      heap := upd s.heap (s.threads t).this
        ((s.heap (s.threads t).this).map (fun o =>
          { o with handle_ := some (Loader.Loader s.os (libName (s.threads t).kind)).handle_ }))
      aborted := (Loader.Loader s.os (libName (s.threads t).kind)).aborted
      threads := upd s.threads t
        { s.threads t with
          pc := if (Loader.Loader s.os (libName (s.threads t).kind)).aborted
                then .dead else .body 0 }
      trace := s.trace ++ (Loader.Loader s.os (libName (s.threads t).kind)).events } := by
  have hT := hI.thr t
  simp only [ThreadInv, hpc] at hT
  obtain ⟨hm, h0, ⟨hp1, hp2, hp3⟩, hheap⟩ := hT
  have hn := hI.news_eq
  have ho := hI.opens_eq
  simp only [building, pending, hm, hpc, PC.isBuilding] at hn ho
  have hbuilt : ∀ k, s.instance_ k ≠ 0 → ∀ o, Built s.os k
      (upd s.heap (s.threads t).this o (s.instance_ k)) := by
    intro k hk o
    have hne : s.instance_ k ≠ (s.threads t).this := Nat.ne_of_lt (hp3 k)
    simpa [upd_ne _ _ hne] using hI.built k hk
  have hopen : ∀ k1 r, isOpen (libName k1)
      (Event.dlopen (libName (s.threads t).kind) [DlFlag.RTLD_LAZY, DlFlag.RTLD_NOLOAD] r)
      = decide ((s.threads t).kind = k1) := by
    intro k1 r
    by_cases hk : (s.threads t).kind = k1
    · simp [isOpen, hk]
    · have : ¬ libName (s.threads t).kind = libName k1 := fun e => hk (libName_injective _ _ e)
      simp [isOpen, hk, this]
  by_cases hr : s.os.resident (libName (s.threads t).kind) = 0
  · rw [Loader_fail _ _ hr]
    refine ⟨hI.os_eq, hI.brk_pos, hI.inst_lt, fun k hk => hbuilt k hk _, ?_, ?_, ?_, ?_, ?_⟩
    · intro u
      by_cases hu : u = t
      · subst hu
        simp [ThreadInv, hm, h0]
      · exact ThreadInv_other s _ t u hu (by simp [upd_ne _ _ hu]) (Or.inr hm) (Or.inr hm)
          (fun _ _ => rfl) (hI.thr u)
    · intro k1
      have := hn k1
      simp [building, hm, PC.isBuilding, news, List.countP_append, List.countP_cons, isNew]
        at this ⊢
      exact this
    · intro k1
      have := ho k1
      have h1 := hopen k1 0
      by_cases hk : (s.threads t).kind = k1
      · simp [pending, hm, news, opens, List.countP_append, List.countP_cons, isNew, isOpen, hk]
          at this h1 ⊢
        exact this
      · simp [pending, hm, news, opens, List.countP_append, List.countP_cons, isNew, isOpen, hk]
          at this h1 ⊢
        simpa [h1] using this
    · intro u k1 r hmem
      simp only [List.mem_append, List.mem_cons, List.mem_singleton, List.not_mem_nil] at hmem
      rcases hmem with hmem | hmem | hmem | hmem | hmem | hmem
      · exact hI.rets u k1 r hmem
      all_goals cases hmem
    · intro k1 hk
      exact List.mem_append_left _ (hI.stores k1 hk)
  · rw [Loader_ok _ _ hr]
    refine ⟨hI.os_eq, hI.brk_pos, hI.inst_lt, fun k hk => hbuilt k hk _, ?_, ?_, ?_, ?_, ?_⟩
    · intro u
      by_cases hu : u = t
      · subst hu
        simp [ThreadInv, hm, h0, Fresh, hp1, hp2, hp3, hr, hheap]
      · exact ThreadInv_other s _ t u hu (by simp [upd_ne _ _ hu]) (Or.inr hm) (Or.inr hm)
          (fun _ _ => rfl) (hI.thr u)
    · intro k1
      have := hn k1
      simp [building, hm, PC.isBuilding, news, List.countP_append, List.countP_cons, isNew]
        at this ⊢
      exact this
    · intro k1
      have := ho k1
      have h1 := hopen k1 (s.os.resident (libName (s.threads t).kind))
      by_cases hk : (s.threads t).kind = k1
      · simp [pending, hm, news, opens, List.countP_append, List.countP_cons, isNew, isOpen, hk]
          at this h1 ⊢
        exact this
      · simp [pending, hm, news, opens, List.countP_append, List.countP_cons, isNew, isOpen, hk]
          at this h1 ⊢
        simpa [h1] using this
    · intro u k1 r hmem
      exact hI.rets u k1 r (mem_of_mem_append_single hmem (by simp))
    · intro k1 hk
      exact List.mem_append_left _ (hI.stores k1 hk)


theorem inv_step_body_some (os : OS) (t i : Nat) (d : String × String) (s : State)
    (hI : Inv os s) (hpc : (s.threads t).pc = .body i)
    (hget : (decls (s.threads t).kind).get? i = some d) :
    Inv os { s with
      heap := upd s.heap (s.threads t).this
        (some { (s.heap (s.threads t).this).getD
                  { kind := (s.threads t).kind, handle_ := none, fields := [] } with
                fields := ((s.heap (s.threads t).this).getD
                    { kind := (s.threads t).kind, handle_ := none, fields := [] }).fields ++
                  [(d.1, Loader.GetFun s.os ((s.heap (s.threads t).this).getD
                    { kind := (s.threads t).kind, handle_ := none, fields := [] }) d.2)] })
      threads := upd s.threads t { s.threads t with pc := .body (i + 1) }
      trace := s.trace ++ [Event.dlsym
        (((s.heap (s.threads t).this).getD
            { kind := (s.threads t).kind, handle_ := none, fields := [] }).handle_.getD 0) d.2
        (Loader.GetFun s.os ((s.heap (s.threads t).this).getD
            { kind := (s.threads t).kind, handle_ := none, fields := [] }) d.2)] } := by
  have hT := hI.thr t
  simp only [ThreadInv, hpc] at hT
  obtain ⟨hm, h0, ⟨hp1, hp2, hp3⟩, hi, hr, hheap⟩ := hT
  have hn := hI.news_eq
  have ho := hI.opens_eq
  simp only [building, pending, hm, hpc, PC.isBuilding] at hn ho
  rw [List.get?_eq_getElem?] at hget
  have hlt : i < (decls (s.threads t).kind).length := by
    by_contra hge
    rw [List.getElem?_eq_none (by omega)] at hget
    cases hget
  have hd : (decls (s.threads t).kind)[i] = d := by
    rw [List.getElem?_eq_getElem hlt] at hget
    exact Option.some.inj hget
  refine ⟨hI.os_eq, hI.brk_pos, hI.inst_lt, ?_, ?_, ?_, ?_, ?_, ?_⟩
  · intro k hk
    have hne : s.instance_ k ≠ (s.threads t).this := Nat.ne_of_lt (hp3 k)
    simpa [upd_ne _ _ hne] using hI.built k hk
  · intro u
    by_cases hu : u = t
    · subst hu
      simp only [ThreadInv, upd_same, hheap, Option.getD_some, Loader.GetFun]
      refine ⟨hm, h0, ⟨hp1, hp2, hp3⟩, hlt, hr, ?_⟩
      rw [List.take_succ, List.getElem?_eq_getElem hlt, hd]
      simp [resolved]
    · exact ThreadInv_other s _ t u hu (by simp [upd_ne _ _ hu]) (Or.inr hm) (Or.inr hm)
        (fun _ _ => rfl) (hI.thr u)
  · intro k1
    simpa [building, hm, PC.isBuilding, news_append_other, isNew] using hn k1
  · intro k1
    simpa [pending, hm, news_append_other, opens_append_other, isNew, isOpen, hpc] using ho k1
  · intro u k1 r hmem
    exact hI.rets u k1 r (mem_of_mem_append_single hmem (by simp))
  · intro k1 hk
    exact List.mem_append_left _ (hI.stores k1 hk)

theorem inv_step_body_none (os : OS) (t i : Nat) (s : State)
    (hI : Inv os s) (hpc : (s.threads t).pc = .body i)
    (hget : (decls (s.threads t).kind).get? i = none) :
    Inv os { s with
      threads := upd s.threads t { s.threads t with obj := (s.threads t).this, pc := .store } } := by
  have hT := hI.thr t
  simp only [ThreadInv, hpc] at hT
  obtain ⟨hm, h0, ⟨hp1, hp2, hp3⟩, hi, hr, hheap⟩ := hT
  have hn := hI.news_eq
  have ho := hI.opens_eq
  simp only [building, pending, hm, hpc, PC.isBuilding] at hn ho
  rw [List.get?_eq_getElem?] at hget
  have hlen : i = (decls (s.threads t).kind).length := by
    have := List.getElem?_eq_none_iff.mp hget
    omega
  refine ⟨hI.os_eq, hI.brk_pos, hI.inst_lt, hI.built, ?_, ?_, ?_, hI.rets, hI.stores⟩
  · intro u
    by_cases hu : u = t
    · subst hu
      simp only [ThreadInv, upd_same]
      refine ⟨hm, h0, ⟨hp1, hp2, hp3⟩, trivial, hr, ?_⟩
      rw [hheap, hlen, List.take_length]
    · exact ThreadInv_other s _ t u hu (by simp [upd_ne _ _ hu]) (Or.inr hm) (Or.inr hm)
        (fun _ _ => rfl) (hI.thr u)
  · intro k1
    simpa [building, hm, PC.isBuilding] using hn k1
  · intro k1
    simpa [pending, hm, hpc] using ho k1

theorem inv_step (os : OS) (t : Nat) (s s1 : State) (hI : Inv os s)
    (h : step s t = some s1) : Inv os s1 := by
  unfold step at h
  by_cases hab : s.aborted = true
  · rw [if_pos hab] at h; cases h
  rw [if_neg hab] at h
  simp only at h
  cases hpc : (s.threads t).pc with
  | idle => rw [hpc] at h; cases h
  | dead => rw [hpc] at h; cases h
  | load =>
    rw [hpc] at h; simp only [Option.some.injEq] at h; subst h
    exact inv_step_load os t s hI hpc
  | lock =>
    rw [hpc] at h
    cases hm : s.mutex_ with
    | some u => rw [hm] at h; cases h
    | none =>
      rw [hm] at h; simp only [Option.some.injEq] at h; subst h
      exact inv_step_lock os t s hI hpc hm
  | recheck =>
    rw [hpc] at h; simp only [Option.some.injEq] at h; subst h
    exact inv_step_recheck os t s hI hpc
  | alloc =>
    rw [hpc] at h; simp only [Option.some.injEq] at h; subst h
    exact inv_step_alloc os t s hI hpc
  | base =>
    rw [hpc] at h; simp only [Option.some.injEq] at h; subst h
    exact inv_step_base os t s hI hpc
  | body i =>
    rw [hpc] at h
    cases hget : (decls (s.threads t).kind).get? i with
    | some d =>
      simp only [hget, Option.some.injEq] at h; subst h
      exact inv_step_body_some os t i d s hI hpc hget
    | none =>
      simp only [hget, Option.some.injEq] at h; subst h
      exact inv_step_body_none os t i s hI hpc hget
  | store =>
    rw [hpc] at h; simp only [Option.some.injEq] at h; subst h
    exact inv_step_store os t s hI hpc
  | unlock =>
    rw [hpc] at h; simp only [Option.some.injEq] at h; subst h
    exact inv_step_unlock os t s hI hpc
  | ret =>
    rw [hpc] at h; simp only [Option.some.injEq] at h; subst h
    exact inv_step_ret os t s hI hpc

theorem inv_run (os : OS) (sched : List Act) : ∀ (s s1 : State), Inv os s →
    run s sched = some s1 → Inv os s1 := by
  induction sched with
  | nil => intro s s1 hI h; simp only [run, Option.some.injEq] at h; subst h; exact hI
  | cons a as ih =>
    intro s s1 hI h
    simp only [run] at h
    cases ha : act s a with
    | none => rw [ha] at h; cases h
    | some s2 =>
      rw [ha] at h
      simp only [Option.some_bind] at h
      refine ih s2 s1 ?_ h
      cases a with
      | call t k => exact inv_enter os k t s s2 hI ha
      | step t => exact inv_step os t s s2 hI ha

theorem inv_reachable (os : OS) (s : State) (h : Reachable os s) : Inv os s := by
  obtain ⟨sched, hs⟩ := h
  exact inv_run os sched _ _ (inv_init os) hs

/-! ## Consequences of the invariant -/

theorem step_instance_stable (os : OS) (t : Nat) (s s1 : State) (k : LoaderKind)
    (hI : Inv os s) (h : step s t = some s1) (hk : s.instance_ k ≠ 0) :
    s1.instance_ k = s.instance_ k := by
  unfold step at h
  by_cases hab : s.aborted = true
  · rw [if_pos hab] at h; cases h
  rw [if_neg hab] at h
  simp only at h
  have hT := hI.thr t
  cases hpc : (s.threads t).pc with
  | idle => rw [hpc] at h; cases h
  | dead => rw [hpc] at h; cases h
  | lock =>
    rw [hpc] at h
    cases hm : s.mutex_ with
    | some u => rw [hm] at h; cases h
    | none => rw [hm] at h; simp only [Option.some.injEq] at h; subst h; rfl
  | body i =>
    rw [hpc] at h
    cases hget : (decls (s.threads t).kind).get? i with
    | some d => simp only [hget, Option.some.injEq] at h; subst h; rfl
    | none => simp only [hget, Option.some.injEq] at h; subst h; rfl
  | store =>
    rw [hpc] at h; simp only [Option.some.injEq] at h; subst h
    simp only [ThreadInv, hpc] at hT
    have hne : k ≠ (s.threads t).kind := fun e => hk (e ▸ hT.2.1)
    exact upd_ne _ _ hne
  | load => rw [hpc] at h; simp only [Option.some.injEq] at h; subst h; rfl
  | recheck => rw [hpc] at h; simp only [Option.some.injEq] at h; subst h; rfl
  | alloc => rw [hpc] at h; simp only [Option.some.injEq] at h; subst h; rfl
  | base => rw [hpc] at h; simp only [Option.some.injEq] at h; subst h; rfl
  | unlock => rw [hpc] at h; simp only [Option.some.injEq] at h; subst h; rfl
  | ret => rw [hpc] at h; simp only [Option.some.injEq] at h; subst h; rfl

theorem enter_instance (k1 : LoaderKind) (t : Nat) (s s1 : State)
    (h : enter k1 t s = some s1) : s1.instance_ = s.instance_ := by
  unfold enter at h
  by_cases hab : s.aborted = true
  · rw [if_pos hab] at h; cases h
  rw [if_neg hab] at h
  by_cases hpc : (s.threads t).pc = .idle
  · rw [if_pos hpc, Option.some.injEq] at h; subst h; rfl
  · rw [if_neg hpc] at h; cases h

theorem run_instance_stable (os : OS) (k : LoaderKind) (sched : List Act) :
    ∀ (s s1 : State), Inv os s → run s sched = some s1 → s.instance_ k ≠ 0 →
      s1.instance_ k = s.instance_ k := by
  induction sched with
  | nil => intro s s1 _ h _; simp only [run, Option.some.injEq] at h; subst h; rfl
  | cons a as ih =>
    intro s s1 hI h hk
    simp only [run] at h
    cases ha : act s a with
    | none => rw [ha] at h; cases h
    | some s2 =>
      rw [ha] at h
      simp only [Option.some_bind] at h
      have hI2 : Inv os s2 := by
        cases a with
        | call t k1 => exact inv_enter os k1 t s s2 hI ha
        | step t => exact inv_step os t s s2 hI ha
      have h2 : s2.instance_ k = s.instance_ k := by
        cases a with
        | call t k1 => rw [enter_instance k1 t s s2 ha]
        | step t => exact step_instance_stable os t s s2 k hI ha hk
      rw [ih s2 s1 hI2 h (h2 ▸ hk), h2]

theorem news_le_one (os : OS) (s : State) (hI : Inv os s) (k : LoaderKind) :
    news k s.trace ≤ 1 := by
  rw [hI.news_eq k]
  by_cases h0 : s.instance_ k = 0
  · simp only [h0, if_true, Nat.zero_add]
    unfold building
    cases hm : s.mutex_ with
    | none => simp
    | some u => simp only; split <;> omega
  · have hb : building s k = 0 := by
      unfold building
      cases hm : s.mutex_ with
      | none => rfl
      | some u =>
        simp only
        have hT := hI.thr u
        by_cases hk : (s.threads u).kind = k
        · subst hk
          have : (s.threads u).pc.isBuilding = false := by
            unfold ThreadInv at hT
            cases hpc : (s.threads u).pc <;> simp only [hpc] at hT <;>
              first
              | rfl
              | exact absurd hT.2.1 h0
          simp [this]
        · simp [hk]
    simp [h0, hb]

theorem opens_le_one (os : OS) (s : State) (hI : Inv os s) (k : LoaderKind) :
    opens (libName k) s.trace ≤ 1 := by
  have h1 := hI.opens_eq k
  have h2 := news_le_one os s hI k
  omega

/-- The outcome of a sequential call from a state in which no thread owns the
mutex and the library is resident: the call returns the published object,
which is fully built, and leaves the process quiescent. -/
theorem Instance_quiescent (os : OS) (k : LoaderKind) (t : Nat) (s : State) (hI : Inv os s)
    (hab : s.aborted = false) (hid : (s.threads t).pc = .idle) (hm : s.mutex_ = none)
    (hr : os.resident (libName k) ≠ 0) :
    (Instance k t s).aborted = false ∧ (Instance k t s).mutex_ = none ∧
    (Instance k t s).instance_ k ≠ 0 ∧
    ((Instance k t s).threads t).result = some ((Instance k t s).instance_ k) ∧
    ((Instance k t s).threads t).pc = .idle ∧
    (∀ u, u ≠ t → (Instance k t s).threads u = s.threads u) ∧
    (Instance k t s).os = os ∧
    Built os k ((Instance k t s).heap ((Instance k t s).instance_ k)) ∧
    (s.instance_ k ≠ 0 → (Instance k t s).instance_ k = s.instance_ k) := by
  have hos := hI.os_eq
  by_cases h0 : s.instance_ k = 0
  · rw [Instance_first_ok k t s hab hid hm h0 (hos ▸ hr)]
    have hb := hI.brk_pos
    simp only [upd_same, hab, hm, hos, true_and]
    refine ⟨by omega, fun u hu => upd_ne _ _ hu, ⟨hr, rfl⟩, fun h => absurd h0 h⟩
  · rw [Instance_fast k t s hab hid h0]
    simp only [upd_same, hab, hm, hos, true_and]
    exact ⟨h0, fun u hu => upd_ne _ _ hu, hos ▸ hI.built k h0, fun _ => trivial⟩

theorem run_append (a b : List Act) : ∀ (s : State),
    run s (a ++ b) = (run s a).bind (fun s1 => run s1 b) := by
  induction a with
  | nil => intro s; simp [run]
  | cons x xs ih =>
    intro s
    simp only [List.cons_append, run]
    cases act s x with
    | none => rfl
    | some s2 => simp only [Option.some_bind]; exact ih s2

theorem reachable_init (os : OS) : Reachable os (init os) := ⟨[], rfl⟩

theorem reachable_act (os : OS) (s s1 : State) (a : Act) (hs : Reachable os s)
    (h : act s a = some s1) : Reachable os s1 := by
  obtain ⟨sched, hsched⟩ := hs
  refine ⟨sched ++ [a], ?_⟩
  rw [run_append, hsched]
  simp [run, h]

theorem reachable_runThread (os : OS) (t : Nat) (n : Nat) : ∀ (s : State),
    Reachable os s → Reachable os (runThread n t s) := by
  induction n with
  | zero => intro s hs; exact hs
  | succ n ih =>
    intro s hs
    simp only [runThread]
    cases h : step s t with
    | none => exact hs
    | some s1 => exact ih s1 (reachable_act os s s1 (.step t) hs h)

theorem reachable_Instance (os : OS) (k : LoaderKind) (t : Nat) (s : State)
    (hs : Reachable os s) : Reachable os (Instance k t s) := by
  unfold Instance
  cases h : enter k t s with
  | none => exact hs
  | some s1 => exact reachable_runThread os t _ s1 (reachable_act os s s1 (.call t k) hs h)

theorem field_resolved (os : OS) (h : Nat) (k : LoaderKind) (ho : Option Nat)
    (d : String × String) (hd : d ∈ decls k) :
    LoaderObj.field ⟨k, ho, (decls k).map (resolved os h)⟩ d.1 = some (os.dlsym h d.2) := by
  cases k
  · simp only [decls, List.mem_cons, List.mem_singleton, List.not_mem_nil, or_false] at hd
    rcases hd with hd | hd | hd | hd | hd | hd <;> subst hd <;> rfl
  · simp only [decls, List.mem_cons, List.mem_singleton, List.not_mem_nil, or_false] at hd
    rcases hd with hd | hd | hd <;> subst hd <;> rfl
  · simp only [decls, List.mem_cons, List.mem_singleton, List.not_mem_nil, or_false] at hd
    rcases hd with hd | hd <;> subst hd <;> rfl
  · simp only [decls, List.mem_cons, List.mem_singleton, List.not_mem_nil, or_false] at hd
    rcases hd with hd | hd <;> subst hd <;> rfl

theorem remaining_congr (s s1 : State) (hm : s1.mutex_ = s.mutex_)
    (hth : ∀ u, s.mutex_ = some u → s1.threads u = s.threads u) :
    remaining s1 = remaining s := by
  unfold remaining
  rw [hm]
  cases h : s.mutex_ with
  | none => rfl
  | some u => simp only [hth u h]

theorem budget_append_other (tr : List Event) (e : Event)
    (h : ∀ k, isNew k e = false) : budget (tr ++ [e]) = budget tr := by
  simp [budget, news, List.countP_append, h]

theorem budget_append_new (tr : List Event) (k : LoaderKind) (p : Nat) :
    budget (tr ++ [Event.newObj k p]) = budget tr + (decls k).length := by
  cases k <;> simp [budget, news, List.countP_append, isNew, decls] <;> omega

theorem resolves_append_other (tr : List Event) (e : Event)
    (h : isResolve e = false) : resolves (tr ++ [e]) = resolves tr := by
  simp [resolves, List.countP_append, h]

theorem resinv_enter (os : OS) (k : LoaderKind) (t : Nat) (s s1 : State) (hI : Inv os s)
    (hR : ResInv s) (h : enter k t s = some s1) : ResInv s1 := by
  unfold enter at h
  by_cases hab : s.aborted = true
  · rw [if_pos hab] at h; cases h
  rw [if_neg hab] at h
  by_cases hpc : (s.threads t).pc = .idle
  · rw [if_pos hpc, Option.some.injEq] at h
    have hT := hI.thr t
    simp only [ThreadInv, hpc] at hT
    unfold ResInv at *
    have hm1 : s1.mutex_ = s.mutex_ := by subst h; rfl
    have htr : s1.trace = s.trace := by subst h; rfl
    have hth : ∀ u, s.mutex_ = some u → s1.threads u = s.threads u := by
      intro u hu
      have : u ≠ t := fun e => hT (e ▸ hu)
      subst h
      simp [upd_ne _ _ this]
    rw [remaining_congr s s1 hm1 hth, htr]
    exact hR
  · rw [if_neg hpc] at h; cases h

theorem resinv_step (os : OS) (t : Nat) (s s1 : State) (hI : Inv os s) (hR : ResInv s)
    (h : step s t = some s1) : ResInv s1 := by
  unfold step at h
  by_cases hab : s.aborted = true
  · rw [if_pos hab] at h; cases h
  rw [if_neg hab] at h
  simp only at h
  have hT := hI.thr t
  unfold ResInv at *
  cases hpc : (s.threads t).pc with
  | idle => rw [hpc] at h; cases h
  | dead => rw [hpc] at h; cases h
  | load =>
    rw [hpc] at h; simp only [Option.some.injEq] at h
    simp only [ThreadInv, hpc] at hT
    have hm1 : s1.mutex_ = s.mutex_ := by subst h; rfl
    have htr : s1.trace = s.trace := by subst h; rfl
    have hth : ∀ u, s.mutex_ = some u → s1.threads u = s.threads u := by
      intro u hu
      have : u ≠ t := fun e => hT (e ▸ hu)
      subst h
      simp [upd_ne _ _ this]
    rw [remaining_congr s s1 hm1 hth, htr]
    exact hR
  | ret =>
    rw [hpc] at h; simp only [Option.some.injEq] at h
    simp only [ThreadInv, hpc] at hT
    have hm1 : s1.mutex_ = s.mutex_ := by subst h; rfl
    have htr : s1.trace = s.trace ++ [Event.ret t (s.threads t).kind
        (returned (s.threads t).kind (s.threads t).obj (s.instance_ (s.threads t).kind))] := by
      subst h; rfl
    have hth : ∀ u, s.mutex_ = some u → s1.threads u = s.threads u := by
      intro u hu
      have : u ≠ t := fun e => hT.1 (e ▸ hu)
      subst h
      simp [upd_ne _ _ this]
    rw [remaining_congr s s1 hm1 hth, htr]
    simpa [budget_append_other, resolves_append_other, isNew, isResolve] using hR
  | lock =>
    rw [hpc] at h
    cases hm : s.mutex_ with
    | some u => rw [hm] at h; cases h
    | none =>
      rw [hm] at h; simp only [Option.some.injEq] at h; subst h
      simpa [remaining, hm, budget_append_other, resolves_append_other, isNew, isResolve]
        using hR
  | recheck =>
    rw [hpc] at h; simp only [Option.some.injEq] at h; subst h
    simp only [ThreadInv, hpc] at hT
    by_cases h0 : s.instance_ (s.threads t).kind = 0 <;>
      simpa [remaining, hT.1, hpc, h0] using hR
  | alloc =>
    rw [hpc] at h; simp only [Option.some.injEq] at h; subst h
    simp only [ThreadInv, hpc] at hT
    simp only [remaining, hT.1, hpc, Nat.add_zero] at hR
    simp [remaining, hT.1, budget_append_new, resolves_append_other, isResolve, hR]
  | base =>
    rw [hpc] at h; simp only [Option.some.injEq] at h; subst h
    simp only [ThreadInv, hpc] at hT
    simp only [remaining, hT.1, hpc] at hR
    by_cases hr : s.os.resident (libName (s.threads t).kind) = 0
    · rw [Loader_fail _ _ hr]
      simpa [remaining, hT.1, budget, news, resolves, List.countP_append, List.countP_cons,
        isNew, isResolve] using hR
    · rw [Loader_ok _ _ hr]
      simpa [remaining, hT.1, budget, news, resolves, List.countP_append, List.countP_cons,
        isNew, isResolve] using hR
  | body i =>
    rw [hpc] at h
    simp only [ThreadInv, hpc] at hT
    simp only [remaining, hT.1, hpc] at hR
    cases hget : (decls (s.threads t).kind).get? i with
    | some d =>
      simp only [hget, Option.some.injEq] at h; subst h
      rw [List.get?_eq_getElem?] at hget
      have hlt : i < (decls (s.threads t).kind).length := by
        by_contra hge
        rw [List.getElem?_eq_none (by omega)] at hget
        cases hget
      simp only [remaining, hT.1, upd_same, resolves, budget, news, List.countP_append,
        List.countP_cons, List.countP_nil, isNew, isResolve] at hR ⊢
      simp only [if_true, Bool.false_eq_true, if_false, Nat.add_zero, Nat.zero_add] at hR ⊢
      omega
    | none =>
      simp only [hget, Option.some.injEq] at h; subst h
      rw [List.get?_eq_getElem?] at hget
      have hlen := List.getElem?_eq_none_iff.mp hget
      have h0 : (decls (s.threads t).kind).length - i = 0 := by omega
      simpa [remaining, hT.1, h0] using hR
  | store =>
    rw [hpc] at h; simp only [Option.some.injEq] at h; subst h
    simp only [ThreadInv, hpc] at hT
    simpa [remaining, hT.1, hpc, budget_append_other, resolves_append_other, isNew, isResolve]
      using hR
  | unlock =>
    rw [hpc] at h; simp only [Option.some.injEq] at h; subst h
    simp only [ThreadInv, hpc] at hT
    simpa [remaining, hT.1, hpc, budget_append_other, resolves_append_other, isNew, isResolve]
      using hR

theorem resinv_run (os : OS) (sched : List Act) : ∀ (s s1 : State), Inv os s → ResInv s →
    run s sched = some s1 → ResInv s1 := by
  induction sched with
  | nil => intro s s1 _ hR h; simp only [run, Option.some.injEq] at h; subst h; exact hR
  | cons a as ih =>
    intro s s1 hI hR h
    simp only [run] at h
    cases ha : act s a with
    | none => rw [ha] at h; cases h
    | some s2 =>
      rw [ha] at h
      simp only [Option.some_bind] at h
      cases a with
      | call t k =>
        exact ih s2 s1 (inv_enter os k t s s2 hI ha) (resinv_enter os k t s s2 hI hR ha) h
      | step t =>
        exact ih s2 s1 (inv_step os t s s2 hI ha) (resinv_step os t s s2 hI hR ha) h

theorem resolves_le_budget (os : OS) (s : State) (hs : Reachable os s) :
    resolves s.trace ≤ budget s.trace := by
  obtain ⟨sched, hsched⟩ := hs
  have := resinv_run os sched _ _ (inv_init os) (by simp [ResInv, init, resolves, budget, news, remaining]) hsched
  unfold ResInv at this
  omega

/-- The three classes that end with `return *instance_` return the published
object in every interleaving; `HccLoader` returns it or the null address. -/
theorem returns_published (os : OS) (s : State) (hs : Reachable os s) (t : Nat)
    (k : LoaderKind) (r : Nat) (h : Event.ret t k r ∈ s.trace) :
    (r = s.instance_ k ∧ r ≠ 0) ∨ (k = .Hcc ∧ r = 0) :=
  (inv_reachable os s hs).rets t k r h

theorem step_lock_blocked (s : State) (u v : Nat) (hm : s.mutex_ = some v)
    (hpc : (s.threads u).pc = .lock) : step s u = none := by
  unfold step
  by_cases hab : s.aborted = true
  · rw [if_pos hab]
  · rw [if_neg hab]; simp only [hpc, hm]

theorem Instance_calls (os : OS) (k : LoaderKind) (t : Nat) (s : State) (hI : Inv os s)
    (hab : s.aborted = false) (hid : (s.threads t).pc = .idle) (hm : s.mutex_ = none)
    (hr : os.resident (libName k) ≠ 0) :
    calls (Instance k t s).trace = calls s.trace := by
  have hos := hI.os_eq
  by_cases h0 : s.instance_ k = 0
  · rw [Instance_first_ok k t s hab hid hm h0 (hos ▸ hr)]
    simp [calls, List.countP_append, List.countP_cons, isCall, resolveEvent]
  · rw [Instance_fast k t s hab hid h0]
    simp [calls, List.countP_append, isCall]

/-! ## The claims -/

/-- C1 (HccLoader, race on first use): thread 1 sees no instance at its first
load and finds the instance published by thread 0 at the re-check under the
lock; its `return *obj` then yields the null address, while thread 0 returned
the published object at address 1. -/
theorem C1_HccLoader_recheck_returns_null :
    (run (init hccOS) raceSched).map
        (fun s => (s.instance_ .Hcc, (s.threads 0).result, (s.threads 1).result,
                   s.trace.getLast?, s.aborted)) =
      some (1, some 1, some 0, some (Event.ret 1 .Hcc 0), false) := by
  decide

/-- C2: in every reachable state each class has been constructed at most once
and its library opened at most once, and the `dlsym` calls made are no more
than one per declared symbol of each class constructed; a published
`instance_` keeps its value along every continuation; and of two sequential
calls the second adds nothing but its own return to the trace, leaves the heap
and the statics alone, and returns the object the first one returned. -/
theorem C2_constructed_at_most_once (os : OS) (k : LoaderKind) (s : State)
    (hs : Reachable os s) :
    news k s.trace ≤ 1 ∧ opens (libName k) s.trace ≤ 1 ∧
    resolves s.trace ≤
      (decls .Hip).length * news .Hip s.trace + (decls .Hcc).length * news .Hcc s.trace +
      (decls .Kfd).length * news .Kfd s.trace + (decls .RocTx).length * news .RocTx s.trace ∧
    (∀ sched s1, run s sched = some s1 → s.instance_ k ≠ 0 →
      s1.instance_ k = s.instance_ k) ∧
    (∀ t u, s.aborted = false → (s.threads t).pc = .idle → (s.threads u).pc = .idle →
      s.mutex_ = none → os.resident (libName k) ≠ 0 →
      ∃ r, r ≠ 0 ∧
        ((Instance k t s).threads t).result = some r ∧
        ((Instance k u (Instance k t s)).threads u).result = some r ∧
        (Instance k u (Instance k t s)).trace = (Instance k t s).trace ++ [Event.ret u k r] ∧
        (Instance k u (Instance k t s)).heap = (Instance k t s).heap ∧
        (Instance k u (Instance k t s)).instance_ = (Instance k t s).instance_ ∧
        news k (Instance k u (Instance k t s)).trace = news k (Instance k t s).trace ∧
        opens (libName k) (Instance k u (Instance k t s)).trace =
          opens (libName k) (Instance k t s).trace) := by
  have hI := inv_reachable os s hs
  refine ⟨news_le_one os s hI k, opens_le_one os s hI k, resolves_le_budget os s hs,
    fun sched s1 h hk => run_instance_stable os k sched s s1 hI h hk, ?_⟩
  intro t u hab hidt hidu hm hr
  obtain ⟨q1, _, q3, q4, q5, q6, _, _, _⟩ := Instance_quiescent os k t s hI hab hidt hm hr
  have hidu1 : ((Instance k t s).threads u).pc = .idle := by
    by_cases hu : u = t
    · subst hu; exact q5
    · rw [q6 u hu]; exact hidu
  refine ⟨(Instance k t s).instance_ k, q3, q4, ?_⟩
  rw [Instance_fast k u (Instance k t s) q1 hidu1 q3]
  simp [news, opens, List.countP_append, isNew, isOpen]

/-- C2 at process start with the KFD wrapper resident: threads 0 and 1 call
`KfdLoader::Instance()` one after the other. -/
theorem C2_constructed_at_most_once_witness :
    news .Kfd (Instance .Kfd 1 (Instance .Kfd 0 (init kfdOS))).trace ≤ 1 ∧
    ∃ r, r ≠ 0 ∧
      ((Instance .Kfd 0 (init kfdOS)).threads 0).result = some r ∧
      ((Instance .Kfd 1 (Instance .Kfd 0 (init kfdOS))).threads 1).result = some r :=
  ⟨(C2_constructed_at_most_once kfdOS .Kfd _
      (reachable_Instance kfdOS .Kfd 1 _
        (reachable_Instance kfdOS .Kfd 0 _ (reachable_init kfdOS)))).1,
   by
    obtain ⟨r, h1, h2, h3, _⟩ :=
      (C2_constructed_at_most_once kfdOS .Kfd (init kfdOS) (reachable_init kfdOS)).2.2.2.2
        0 1 rfl rfl rfl rfl (by decide)
    exact ⟨r, h1, h2, h3⟩⟩

/-- C3: when the library is not resident, a first `Instance()` call prints the
diagnostic naming the library and the `dlerror` text and aborts: the only
`dlopen` carries `RTLD_NOLOAD` and the linker state is unchanged (nothing is
loaded), no `dlsym` happens, nothing is returned, every `instance_` keeps its
value (null for this class), and no thread can move afterwards. -/
theorem C3_missing_library_is_fatal (k : LoaderKind) (t : Nat) (s : State)
    (hab : s.aborted = false) (hid : (s.threads t).pc = .idle) (hm : s.mutex_ = none)
    (hi : s.instance_ k = 0) (hr : s.os.resident (libName k) = 0) :
    (Instance k t s).aborted = true ∧
    (Instance k t s).trace = s.trace ++
      [Event.lock t, Event.newObj k s.brk,
       Event.dlopen (libName k) [DlFlag.RTLD_LAZY, DlFlag.RTLD_NOLOAD] 0,
       Event.dlerror,
       Event.fprintf ("roctracer: Loading \x27" ++ libName k ++ "\x27 failed, " ++
          s.os.dlerror ++ "\n"),
       Event.abort] ∧
    (Instance k t s).os = s.os ∧
    (Instance k t s).os.resident (libName k) = 0 ∧
    (Instance k t s).instance_ = s.instance_ ∧
    (Instance k t s).instance_ k = 0 ∧
    ((Instance k t s).threads t).result = none ∧
    ((Instance k t s).threads t).pc = .dead ∧
    (∀ u, step (Instance k t s) u = none) ∧
    (∀ u k1, enter k1 u (Instance k t s) = none) := by
  rw [Instance_first_abort k t s hab hid hm hi hr]
  simp [hr, hi, loadFailedMsg, step, enter]

/-- C3 at process start with no library resident. -/
theorem C3_missing_library_is_fatal_witness :
    (Instance .Hip 0 (init (testOS [] []))).aborted = true ∧
    ((Instance .Hip 0 (init (testOS [] []))).threads 0).result = none :=
  have h := C3_missing_library_is_fatal .Hip 0 (init (testOS [] [])) rfl rfl rfl rfl rfl
  ⟨h.1, h.2.2.2.2.2.2.1⟩

/-- C4 (as stated, refuted): the KFD wrapper is resident and lacks
`RemoveApiCallback`; `KfdLoader::Instance()` does not abort, returns the
object at address 1 and publishes it with a null `RemoveApiCallback` member. -/
theorem C4_missing_symbol_not_fatal_counterexample :
    missingSymOS.resident (libName .Kfd) ≠ 0 ∧
    missingSymOS.dlsym (missingSymOS.resident (libName .Kfd)) "RemoveApiCallback" = 0 ∧
    (Instance .Kfd 0 (init missingSymOS)).aborted = false ∧
    ((Instance .Kfd 0 (init missingSymOS)).threads 0).result = some 1 ∧
    (Instance .Kfd 0 (init missingSymOS)).instance_ .Kfd = 1 ∧
    ((Instance .Kfd 0 (init missingSymOS)).heap 1).bind
      (fun o => o.field "RemoveApiCallback") = some 0 := by
  decide

/-- C4 (amended): no class checks what `GetFun` returns.  When the library is
resident and a declared symbol resolves to null, the first `Instance()` call
does not abort: it returns and publishes an object whose member for that
symbol is null, every member holding exactly what `dlsym` returned. -/
theorem C4_missing_symbol_is_published_as_null (os : OS) (k : LoaderKind) (t : Nat)
    (s : State) (hs : Reachable os s) (hab : s.aborted = false)
    (hid : (s.threads t).pc = .idle) (hm : s.mutex_ = none) (hi : s.instance_ k = 0)
    (hr : os.resident (libName k) ≠ 0) (d : String × String) (hd : d ∈ decls k)
    (hnull : os.dlsym (os.resident (libName k)) d.2 = 0) :
    (Instance k t s).aborted = false ∧
    s.brk ≠ 0 ∧
    ((Instance k t s).threads t).result = some s.brk ∧
    Event.ret t k s.brk ∈ (Instance k t s).trace ∧
    (Instance k t s).instance_ k = s.brk ∧
    (Instance k t s).heap s.brk = some ⟨k, some (os.resident (libName k)),
      (decls k).map (fun d => (d.1, os.dlsym (os.resident (libName k)) d.2))⟩ ∧
    ((Instance k t s).heap s.brk).bind (fun o => o.field d.1) = some 0 := by
  have hI := inv_reachable os s hs
  have hos := hI.os_eq
  have hb := hI.brk_pos
  rw [Instance_first_ok k t s hab hid hm hi (hos ▸ hr)]
  simp only [upd_same, hab, hos, true_and, Option.some_bind]
  refine ⟨by omega, by simp, rfl, ?_⟩
  rw [← hnull]
  exact field_resolved os _ k _ d hd

/-- C4 (amended) at process start with `RemoveApiCallback` missing from the
KFD wrapper. -/
theorem C4_missing_symbol_is_published_as_null_witness :
    (Instance .Kfd 0 (init missingSymOS)).aborted = false ∧
    ((Instance .Kfd 0 (init missingSymOS)).heap (init missingSymOS).brk).bind
      (fun o => o.field "RemoveApiCallback") = some 0 :=
  have h := C4_missing_symbol_is_published_as_null missingSymOS .Kfd 0 (init missingSymOS)
    (reachable_init missingSymOS) rfl rfl rfl rfl (by decide)
    ("RemoveApiCallback", "RemoveApiCallback") (by decide) (by decide)
  ⟨h.1, h.2.2.2.2.2.2⟩

/-- C5 (as stated, refuted): thread 0 is inside `HipLoader::Instance()` and
owns the mutex; thread 1, inside `KfdLoader::Instance()` with no KFD instance
published and nobody constructing one, stands at its lock statement and
cannot take it. -/
theorem C5_lock_is_shared_counterexample :
    (run (init hipOS) contendSched).map
        (fun s => (s.mutex_, (s.threads 0).kind, (s.threads 0).pc,
                   (s.threads 1).kind, (s.threads 1).pc, s.instance_ .Kfd,
                   (step s 1).isNone)) =
      some (some 0, .Hip, .recheck, .Kfd, .lock, 0, true) := by
  rfl

/-- C5 (amended): a first `Instance()` call on class `A` leaves the
`instance_` of another class `B` unchanged, constructs no `B` object and does
not open the library of `B`; the lock it takes is the one `Loader::mutex_`
shared by all four classes, so while the call owns it a thread of `B` that
has reached its lock statement cannot move. -/
theorem C5_state_independent_lock_shared (A B : LoaderKind) (hAB : A ≠ B) (t : Nat)
    (s : State) (hab : s.aborted = false) (hid : (s.threads t).pc = .idle)
    (hm : s.mutex_ = none) (hi : s.instance_ A = 0) :
    (Instance A t s).instance_ B = s.instance_ B ∧
    news B (Instance A t s).trace = news B s.trace ∧
    opens (libName B) (Instance A t s).trace = opens (libName B) s.trace ∧
    (∃ rest, (Instance A t s).trace = s.trace ++ Event.lock t :: rest) ∧
    (∀ s0, enter A t s = some s0 →
      (runThread 2 t s0).mutex_ = some t ∧
      ∀ n u, (runThread n t s0).mutex_ = some t →
        ((runThread n t s0).threads u).kind = B →
        ((runThread n t s0).threads u).pc = .lock →
        step (runThread n t s0) u = none) := by
  have hBA : B ≠ A := fun e => hAB e.symm
  have hlib : ¬ libName A = libName B := fun e => hAB (libName_injective _ _ e)
  have hfirst : (Instance A t s).instance_ B = s.instance_ B ∧
      news B (Instance A t s).trace = news B s.trace ∧
      opens (libName B) (Instance A t s).trace = opens (libName B) s.trace ∧
      (∃ rest, (Instance A t s).trace = s.trace ++ Event.lock t :: rest) := by
    by_cases hr : s.os.resident (libName A) = 0
    · rw [Instance_first_abort A t s hab hid hm hi hr]
      refine ⟨rfl, ?_, ?_, ⟨_, rfl⟩⟩
      · simp [news, List.countP_append, List.countP_cons, isNew, hAB]
      · simp [opens, List.countP_append, List.countP_cons, isOpen, hlib]
    · rw [Instance_first_ok A t s hab hid hm hi hr]
      refine ⟨upd_ne _ _ hBA, ?_, ?_, ⟨_, rfl⟩⟩
      · simp [news, List.countP_append, List.countP_cons, isNew, hAB, resolveEvent]
      · simp [opens, List.countP_append, List.countP_cons, isOpen, hlib, resolveEvent]
  refine ⟨hfirst.1, hfirst.2.1, hfirst.2.2.1, hfirst.2.2.2, ?_⟩
  intro s0 h0
  refine ⟨?_, fun n u hmn _ hpc => step_lock_blocked _ u t hmn hpc⟩
  unfold enter at h0
  rw [if_neg (by simp [hab]), if_pos hid, Option.some.injEq] at h0
  subst h0
  simp [runThread, step, hab, hi, hm]

/-- C5 (amended) at process start: a first `HipLoader::Instance()` call and
the `KfdLoader` statics. -/
theorem C5_state_independent_lock_shared_witness :
    (Instance .Hip 0 (init hipOS)).instance_ .Kfd = 0 ∧
    news .Kfd (Instance .Hip 0 (init hipOS)).trace = 0 :=
  have h := C5_state_independent_lock_shared .Hip .Kfd (by decide) 0 (init hipOS)
    rfl rfl rfl rfl
  ⟨h.1, h.2.1⟩

/-- C6: in every reachable state a non-null `instance_` points to an object
whose construction is over: it is bound to the resident image and every
declared member holds the result of resolving its symbol against that image;
and any non-null reference an `Instance()` call has returned is that
object. -/
theorem C6_published_instance_is_complete (os : OS) (s : State) (hs : Reachable os s)
    (k : LoaderKind) (hp : s.instance_ k ≠ 0) :
    os.resident (libName k) ≠ 0 ∧
    s.heap (s.instance_ k) = some ⟨k, some (os.resident (libName k)),
      (decls k).map (fun d => (d.1, os.dlsym (os.resident (libName k)) d.2))⟩ ∧
    (∀ d, d ∈ decls k →
      (s.heap (s.instance_ k)).bind (fun o => o.field d.1) =
        some (os.dlsym (os.resident (libName k)) d.2)) ∧
    (∀ t r, Event.ret t k r ∈ s.trace → r ≠ 0 → r = s.instance_ k) := by
  have hI := inv_reachable os s hs
  have hb := hI.built k hp
  rw [hI.os_eq] at hb
  obtain ⟨hb1, hb2⟩ := hb
  refine ⟨hb1, hb2, ?_, ?_⟩
  · intro d hd
    rw [hb2]
    exact field_resolved os _ k _ d hd
  · intro t r hmem hr
    rcases hI.rets t k r hmem with h | h
    · exact h.1
    · exact absurd h.2 hr

/-- C6 after a first `HipLoader::Instance()` call with the library resident. -/
theorem C6_published_instance_is_complete_witness :
    (Instance .Hip 0 (init hipOS)).instance_ .Hip ≠ 0 ∧
    (Instance .Hip 0 (init hipOS)).heap ((Instance .Hip 0 (init hipOS)).instance_ .Hip) =
      some ⟨.Hip, some (hipOS.resident (libName .Hip)),
        (decls .Hip).map (fun d => (d.1, hipOS.dlsym (hipOS.resident (libName .Hip)) d.2))⟩ :=
  ⟨by decide,
   (C6_published_instance_is_complete hipOS (Instance .Hip 0 (init hipOS))
      (reachable_Instance hipOS .Hip 0 _ (reachable_init hipOS)) .Hip (by decide)).2.1⟩

/-- C7: with the library resident a first `Instance()` call performs, in this
order and nothing else in between, the lock, the allocation, one
`dlopen(lib, RTLD_LAZY|RTLD_NOLOAD)` of the class's library, one `dlsym` per
declared symbol on the handle that `dlopen` returned, the publishing store,
the unlock and the return; each `dlsym` result is the value of the member the
constructor assigns it to; and the libraries and symbols are the fixed ones. -/
theorem C7_construction_sequence (k : LoaderKind) (t : Nat) (s : State)
    (hab : s.aborted = false) (hid : (s.threads t).pc = .idle) (hm : s.mutex_ = none)
    (hi : s.instance_ k = 0) (hr : s.os.resident (libName k) ≠ 0) :
    (Instance k t s).trace = s.trace ++
      ([Event.lock t, Event.newObj k s.brk,
        Event.dlopen (libName k) [DlFlag.RTLD_LAZY, DlFlag.RTLD_NOLOAD]
          (s.os.resident (libName k))] ++
       (decls k).map (fun d => Event.dlsym (s.os.resident (libName k)) d.2
          (s.os.dlsym (s.os.resident (libName k)) d.2)) ++
       [Event.store k s.brk, Event.unlock t, Event.ret t k s.brk]) ∧
    (Instance k t s).heap s.brk = some ⟨k, some (s.os.resident (libName k)),
      (decls k).map (fun d => (d.1, s.os.dlsym (s.os.resident (libName k)) d.2))⟩ ∧
    (Instance k t s).instance_ k = s.brk ∧
    ((Instance k t s).threads t).result = some s.brk ∧
    (libName k, (decls k).map (fun d => d.2)) =
      (match k with
       | .Hip => ("libhip_hcc.so",
           ["hipRegisterApiCallback", "hipRemoveApiCallback", "hipRegisterActivityCallback",
            "hipRemoveActivityCallback", "hipKernelNameRef", "hipApiName"])
       | .Hcc => ("libmcwamp_hsa.so",
           ["InitActivityCallbackImpl", "EnableActivityCallbackImpl", "GetCmdNameImpl"])
       | .Kfd => ("libkfdwrapper64.so", ["RegisterApiCallback", "RemoveApiCallback"])
       | .RocTx => ("libroctx64.so", ["RegisterApiCallback", "RemoveApiCallback"])) ∧
    (decls k).map (fun d => d.1) =
      (match k with
       | .Hip => ["RegisterApiCallback", "RemoveApiCallback", "RegisterActivityCallback",
                  "RemoveActivityCallback", "KernelNameRef", "ApiName"]
       | .Hcc => ["InitActivityCallback", "EnableActivityCallback", "GetCmdName"]
       | .Kfd => ["RegisterApiCallback", "RemoveApiCallback"]
       | .RocTx => ["RegisterApiCallback", "RemoveApiCallback"]) := by
  rw [Instance_first_ok k t s hab hid hm hi hr]
  refine ⟨rfl, by simp only [upd_same]; rfl, by simp only [upd_same],
    by simp only [upd_same], ?_, ?_⟩ <;> cases k <;> rfl

/-- C7 at process start with the HIP runtime resident. -/
theorem C7_construction_sequence_witness :
    (Instance .Hip 0 (init hipOS)).trace =
      [Event.lock 0, Event.newObj .Hip 1,
       Event.dlopen "libhip_hcc.so" [DlFlag.RTLD_LAZY, DlFlag.RTLD_NOLOAD] 5,
       Event.dlsym 5 "hipRegisterApiCallback" 122,
       Event.dlsym 5 "hipRemoveApiCallback" 120,
       Event.dlsym 5 "hipRegisterActivityCallback" 127,
       Event.dlsym 5 "hipRemoveActivityCallback" 125,
       Event.dlsym 5 "hipKernelNameRef" 116,
       Event.dlsym 5 "hipApiName" 110,
       Event.store .Hip 1, Event.unlock 0, Event.ret 0 .Hip 1] :=
  (C7_construction_sequence .Hip 0 (init hipOS) rfl rfl rfl rfl (by decide)).1

/-- C8: a call that starts with the instance published takes no lock, calls
neither `dlopen` nor `dlsym`, leaves every shared variable as it was, and
returns the published object; this holds whoever owns the mutex meanwhile. -/
theorem C8_published_call_is_a_read (k : LoaderKind) (t : Nat) (s : State)
    (hab : s.aborted = false) (hid : (s.threads t).pc = .idle) (hp : s.instance_ k ≠ 0) :
    (Instance k t s).trace = s.trace ++ [Event.ret t k (s.instance_ k)] ∧
    ((Instance k t s).threads t).result = some (s.instance_ k) ∧
    ((Instance k t s).threads t).pc = .idle ∧
    (Instance k t s).instance_ = s.instance_ ∧
    (Instance k t s).heap = s.heap ∧
    (Instance k t s).mutex_ = s.mutex_ ∧
    (Instance k t s).brk = s.brk ∧
    (Instance k t s).os = s.os ∧
    (Instance k t s).aborted = false ∧
    (∀ u, u ≠ t → (Instance k t s).threads u = s.threads u) := by
  rw [Instance_fast k t s hab hid hp]
  simp only [upd_same, hab, true_and]
  intro u hu
  exact upd_ne _ _ hu

/-- C8 for a second `KfdLoader::Instance()` call, the first one having
published the object at address 1. -/
theorem C8_published_call_is_a_read_witness :
    (Instance .Kfd 1 (Instance .Kfd 0 (init kfdOS))).trace =
      (Instance .Kfd 0 (init kfdOS)).trace ++ [Event.ret 1 .Kfd 1] ∧
    (Instance .Kfd 1 (Instance .Kfd 0 (init kfdOS))).mutex_ = none :=
  have h := C8_published_call_is_a_read .Kfd 1 (Instance .Kfd 0 (init kfdOS))
    rfl rfl (by decide)
  ⟨h.1, h.2.2.2.2.2.1⟩

/-- C9: for `KfdLoader` and `RocTxLoader`, when the resident library exports
under the name `RegisterApiCallback` a function `stub` of type
`bool(uint32_t, void*, void*)`, the expression
`Instance().RegisterApiCallback(op, callback, arg)` runs `stub` once on
exactly `op`, `callback`, `arg` and yields what `stub` returns. -/
theorem C9_RegisterApiCallback_forwards (os : OS) (k : LoaderKind)
    (hk : k = .Kfd ∨ k = .RocTx) (t : Nat) (s : State) (hs : Reachable os s)
    (hab : s.aborted = false) (hid : (s.threads t).pc = .idle) (hm : s.mutex_ = none)
    (hr : os.resident (libName k) ≠ 0) (stub : Nat → Nat → Nat → Bool)
    (htext : os.text (os.dlsym (os.resident (libName k)) "RegisterApiCallback") = some stub)
    (op callback arg : Nat) :
    ∃ s2, callRegisterApiCallback k t s op callback arg = some (stub op callback arg, s2) ∧
      s2.trace = (Instance k t s).trace ++
        [Event.call (os.dlsym (os.resident (libName k)) "RegisterApiCallback")
          op callback arg (stub op callback arg)] ∧
      calls s2.trace = calls s.trace + 1 := by
  have hI := inv_reachable os s hs
  obtain ⟨_, _, _, q4, _, _, q7, q8, _⟩ := Instance_quiescent os k t s hI hab hid hm hr
  have hc := Instance_calls os k t s hI hab hid hm hr
  have hd : ("RegisterApiCallback", "RegisterApiCallback") ∈ decls k := by
    rcases hk with hk | hk <;> subst hk <;> simp [decls]
  have hf := field_resolved os (os.resident (libName k)) k
    (some (os.resident (libName k))) _ hd
  simp only at hf
  unfold callRegisterApiCallback
  simp only [q4, q8.2, Option.some_bind, hf, callPtr, q7, htext, Option.map_some']
  refine ⟨_, rfl, rfl, ?_⟩
  simp [calls, List.countP_append, isCall] at hc ⊢
  exact hc

/-- C9 on the test linker: `op = 7`, `callback = 1000`, `arg = 2000`; the stub
returns `true`, the call returns `true` and one invocation with those
arguments is recorded. -/
theorem C9_RegisterApiCallback_forwards_witness :
    ∃ s2, callRegisterApiCallback .Kfd 0 (init kfdOS) 7 1000 2000 = some (true, s2) ∧
      s2.trace = (Instance .Kfd 0 (init kfdOS)).trace ++ [Event.call 119 7 1000 2000 true] ∧
      calls s2.trace = 1 :=
  C9_RegisterApiCallback_forwards kfdOS .Kfd (Or.inl rfl) 0 (init kfdOS)
    (reachable_init kfdOS) rfl rfl rfl (by decide) (fun op _ _ => decide (op = 7))
    rfl 7 1000 2000

/-- What holds of `HccLoader::GetRef()`: it returns the value of `instance_`
and leaves the whole process state, trace included, as it was.  In every
reachable state it returns null as long as no store to `HccLoader::instance_`
has happened, and once an instance is published it returns the address that a
call of `HccLoader::Instance()` begun in that state returns, before and after
that call.  A call begun before publication is not covered. -/
theorem GetRef_reads_instance (os : OS) (s : State) (hs : Reachable os s) :
    (HccLoader.GetRef s).2 = s ∧
    (HccLoader.GetRef s).1 = s.instance_ .Hcc ∧
    ((∀ p, Event.store .Hcc p ∉ s.trace) → (HccLoader.GetRef s).1 = 0) ∧
    (s.instance_ .Hcc ≠ 0 → ∀ t, s.aborted = false → (s.threads t).pc = .idle →
      ((Instance .Hcc t s).threads t).result = some (HccLoader.GetRef s).1 ∧
      (HccLoader.GetRef (Instance .Hcc t s)).1 = (HccLoader.GetRef s).1) ∧
    (∀ t, s.aborted = false → (s.threads t).pc = .idle → s.mutex_ = none →
      os.resident (libName .Hcc) ≠ 0 →
      (HccLoader.GetRef (Instance .Hcc t s)).1 ≠ 0 ∧
      ((Instance .Hcc t s).threads t).result =
        some (HccLoader.GetRef (Instance .Hcc t s)).1) := by
  have hI := inv_reachable os s hs
  refine ⟨rfl, rfl, ?_, ?_, ?_⟩
  · intro hno
    by_contra hne
    exact hno _ (hI.stores .Hcc hne)
  · intro hp t hab hid
    rw [Instance_fast .Hcc t s hab hid hp]
    simp [HccLoader.GetRef]
  · intro t hab hid hm hr
    obtain ⟨_, _, q3, q4, _⟩ := Instance_quiescent os .Hcc t s hI hab hid hm hr
    exact ⟨q3, q4⟩

/-- The previous lemma at process start and after a first
`HccLoader::Instance()` call. -/
theorem GetRef_reads_instance_at_start :
    (HccLoader.GetRef (init hccOS)).1 = 0 ∧
    ((Instance .Hcc 0 (init hccOS)).threads 0).result =
      some (HccLoader.GetRef (Instance .Hcc 0 (init hccOS))).1 :=
  have h := GetRef_reads_instance hccOS (init hccOS) (reachable_init hccOS)
  ⟨h.2.2.1 (by simp [init]), (h.2.2.2.2 0 rfl rfl rfl (by decide)).2⟩

/-- C10 (HccLoader, race on first use): in the state reached by the race of
two first callers the instance is published and `HccLoader::GetRef()` returns
its address 1 without changing the state, thread 0's `HccLoader::Instance()`
returned that same address, but thread 1's `HccLoader::Instance()`, which
found the instance at the re-check under the lock, returned the null
address: after publication `GetRef()` and a returning `Instance()` disagree. -/
theorem C10_GetRef_differs_from_racing_Instance :
    (run (init hccOS) raceSched).map
        (fun s => ((HccLoader.GetRef s).1, (HccLoader.GetRef s).2.trace == s.trace,
                   s.trace.contains (Event.store .Hcc 1),
                   s.trace.contains (Event.ret 0 .Hcc 1),
                   s.trace.contains (Event.ret 1 .Hcc 0),
                   (s.threads 1).kind, (s.threads 1).pc, (s.threads 1).result)) =
      some (1, true, true, true, true, .Hcc, .idle, some 0) := by
  rfl

end roctracer
